import Mathlib

/-!
# Verification of the HOT Tasking Manager GeoJSON optimizer (src/app.py)

A shallow embedding of the polygon-splitting / merging pipeline of
`src/app.py`.  Python floats are idealised as real numbers.  A polygon is
represented by its exterior ring, a list of `(lon, lat)` coordinates,
exactly the data the source's numeric helpers (`geodesic_area_m2`,
`perimeter_m`, `compactness`) read.  The shapely geometry kernel is an
external dependency of the program; its boolean operations are modelled
by explicit kernel functions, exact on axis-aligned rectangles, which are
the only shapes the theorems below evaluate them on.  The `while` loops of
`split_by_area_no_pyproj` are embedded as fuelled recursion, with the fuel
chosen large enough to cover every iteration the source performs.
-/

/-- A point is a `(lon, lat)` pair of reals. -/
abbrev GPoint : Type := ℝ × ℝ

/-- The exterior ring of a polygon: its coordinate list (closed: the source
keeps the repeated last coordinate in the list). -/
abbrev PolyRing : Type := List GPoint

/-- `rad(d)`: degrees to radians, from `def rad(d): return d * math.pi / 180.0`. -/
noncomputable def rad (d : ℝ) : ℝ := d * Real.pi / 180.0

/-- Earth radius in meters, the constant `R = 6371000.0` of the source. -/
def EarthR : ℝ := 6371000.0

/-- `math.atan2` on reals (standard quadrant-aware arctangent). -/
noncomputable def atan2 (y x : ℝ) : ℝ :=
  if 0 < x then Real.arctan (y / x)
  else if x < 0 ∧ 0 ≤ y then Real.arctan (y / x) + Real.pi
  else if x < 0 ∧ y < 0 then Real.arctan (y / x) - Real.pi
  else if x = 0 ∧ 0 < y then Real.pi / 2
  else if x = 0 ∧ y < 0 then -(Real.pi / 2)
  else 0

/-- `haversine_m(lon1, lat1, lon2, lat2)` from the source. -/
noncomputable def haversine_m (lon1 lat1 lon2 lat2 : ℝ) : ℝ :=
  let lat1r := rad lat1
  let lat2r := rad lat2
  let dlat := lat2r - lat1r
  let dlon := rad (lon2 - lon1)
  let a := Real.sin (dlat / 2) ^ 2 +
    Real.cos lat1r * Real.cos lat2r * Real.sin (dlon / 2) ^ 2
  let c := 2 * atan2 (Real.sqrt a) (Real.sqrt (1 - a))
  EarthR * c

/-- The summation loop of `geodesic_area_m2`: over consecutive coordinate
pairs, `total += rad(lon2 - lon1) * (2 + sin(rad(lat1)) + sin(rad(lat2)))`. -/
noncomputable def geoAreaSum : PolyRing → ℝ
  | p1 :: p2 :: rest =>
    rad (p2.1 - p1.1) * (2 + Real.sin (rad p1.2) + Real.sin (rad p2.2)) +
      geoAreaSum (p2 :: rest)
  | _ => 0

/-- `geodesic_area_m2(poly)` from the source: `0.0` for fewer than three
coordinates, else `abs(total * R**2 / 2.0)`. -/
noncomputable def geodesic_area_m2 (coords : PolyRing) : ℝ :=
  if coords.length < 3 then 0 else |geoAreaSum coords * EarthR ^ 2 / 2|

/-- The summation loop of `perimeter_m`: haversine lengths of consecutive
coordinate pairs. -/
noncomputable def perimSum : PolyRing → ℝ
  | p1 :: p2 :: rest => haversine_m p1.1 p1.2 p2.1 p2.2 + perimSum (p2 :: rest)
  | _ => 0

/-- `perimeter_m(poly)` from the source. -/
noncomputable def perimeter_m (coords : PolyRing) : ℝ := perimSum coords

/-- `compactness(poly) = 4π·area / perimeter²`, `0.0` when the perimeter is
not positive, from the source. -/
noncomputable def compactness (coords : PolyRing) : ℝ :=
  let a := geodesic_area_m2 coords
  let p := perimeter_m coords
  if p ≤ 0 then 0 else 4 * Real.pi * a / (p * p)

/-- `meters_per_degree(lat_deg)` from the source; returns the pair
`(m_per_deg_lat, m_per_deg_lon)`. -/
noncomputable def meters_per_degree (lat_deg : ℝ) : ℝ × ℝ :=
  let lat_rad := rad lat_deg
  (111132.954 - 559.822 * Real.cos (2 * lat_rad) + 1.175 * Real.cos (4 * lat_rad),
   111132.954 * Real.cos lat_rad)

/-- An axis-aligned rectangle `[x1, x2] × [y1, y2]`; the shape of shapely's
`box(...)` cells and of the rectangular polygons our theorems feed the
splitter. -/
structure Rect where
  x1 : ℝ
  y1 : ℝ
  x2 : ℝ
  y2 : ℝ

/-- The closed exterior ring of a rectangle (one fixed vertex order; the
numeric helpers of the source are insensitive to the starting vertex). -/
def Rect.ring (r : Rect) : PolyRing :=
  [(r.x1, r.y1), (r.x2, r.y1), (r.x2, r.y2), (r.x1, r.y2), (r.x1, r.y1)]

/-- Recover a rectangle from a 5-point closed rectangular ring, `none` for
any other ring.  Used to model shapely's operations on the rectangular
geometries our theorems evaluate them on. -/
noncomputable def ringRect : PolyRing → Option Rect
  | [(a, b), (c, d), (e, f), (g, h), (i, j)] =>
    if d = b ∧ e = c ∧ g = a ∧ h = f ∧ i = a ∧ j = b then some (Rect.mk a b c f)
    else none
  | _ => none

/-- `poly.bounds` of shapely: the coordinate-wise min/max over the exterior
ring (an empty ring gets a junk value, never reached by the theorems). -/
noncomputable def ringBounds : PolyRing → Rect
  | [] => Rect.mk 0 0 0 0
  | (x, y) :: rest =>
    rest.foldl (fun b p => Rect.mk (min b.x1 p.1) (min b.y1 p.2) (max b.x2 p.1) (max b.y2 p.2))
      (Rect.mk x y x y)

/-- Intersection of two rectangles: `some` of the overlap when it has
positive width and height, `none` when the intersection is empty or
degenerate (a line or point, which the source skips because it is not a
`Polygon`/`MultiPolygon` instance). -/
noncomputable def clipRect (r cell : Rect) : Option Rect :=
  let nx1 := max r.x1 cell.x1
  let ny1 := max r.y1 cell.y1
  let nx2 := min r.x2 cell.x2
  let ny2 := min r.y2 cell.y2
  if nx1 < nx2 ∧ ny1 < ny2 then some (Rect.mk nx1 ny1 nx2 ny2) else none

/-- A geometry kernel for the splitter: `poly.intersection(cell)` returning
the list of polygonal parts of the intersection, or an error when the
kernel raises (shapely topological errors). -/
abbrev GeoKernel : Type := PolyRing → Rect → Except Unit (List PolyRing)

/-- The modelled shapely intersection: exact on rectangular rings, never
raising.  Non-rectangular rings are outside the model's evaluation domain
and get the empty intersection. -/
noncomputable def shapelyClip : GeoKernel := fun ring cell =>
  match ringRect ring with
  | some r => .ok (((clipRect r cell).map Rect.ring).toList)
  | none => .ok []

/-- A kernel whose intersection always raises, modelling a shapely
topological failure. -/
def failClip : GeoKernel := fun _ _ => .error ()

/-- The `shape(...)` result the splitter dispatches on: a `Polygon` or a
`MultiPolygon`. -/
inductive Geom : Type
  | poly (r : PolyRing)
  | multi (rs : List PolyRing)

/-- The inner `while y < maxy` loop of `split_by_area_no_pyproj`:
intersect the polygon with the cell `box(x, y, x + cl, y + ca)`, keep the
polygonal parts, advance `y` by `ca`.  Fuelled recursion; the caller passes
fuel covering every iteration of the source loop. -/
noncomputable def split_yloop (K : GeoKernel) (poly : PolyRing) (x cl ey ca : ℝ) :
    ℕ → ℝ → Except Unit (List PolyRing)
  | 0, _ => .ok []
  | fuel + 1, y =>
    if y < ey then
      match K poly (Rect.mk x y (x + cl) (y + ca)) with
      | .error e => .error e
      | .ok parts =>
        match split_yloop K poly x cl ey ca fuel (y + ca) with
        | .error e => .error e
        | .ok rest => .ok (parts ++ rest)
    else .ok []

/-- The outer `while x < maxx` loop of `split_by_area_no_pyproj`: run the
inner loop from `y = miny`, advance `x` by `cl`. -/
noncomputable def split_xloop (K : GeoKernel) (poly : PolyRing) (ex my ey cl ca : ℝ)
    (fuelY : ℕ) : ℕ → ℝ → Except Unit (List PolyRing)
  | 0, _ => .ok []
  | fuel + 1, x =>
    if x < ex then
      match split_yloop K poly x cl ey ca fuelY my with
      | .error e => .error e
      | .ok col =>
        match split_xloop K poly ex my ey cl ca fuelY fuel (x + cl) with
        | .error e => .error e
        | .ok rest => .ok (col ++ rest)
    else .ok []

/-- The `Polygon` branch of `split_by_area_no_pyproj(poly_geojson, max_area_m2)`:
return `[poly]` when `geodesic_area_m2(poly) <= max_area_m2`; otherwise lay a
grid of cells of side `sqrt(max_area_m2)` meters — converted to degrees with
`meters_per_degree` of the mid-latitude of the bounds — over the bounding box,
intersect the polygon with every cell, and return the collected pieces
(falling back to `[poly]` if no piece was collected). -/
noncomputable def split_poly (K : GeoKernel) (poly : PolyRing) (max_area_m2 : ℝ) :
    Except Unit (List PolyRing) :=
  let area_m2 := geodesic_area_m2 poly
  if area_m2 ≤ max_area_m2 then .ok [poly]
  else
    let cell_m := Real.sqrt max_area_m2
    let b := ringBounds poly
    let mid_lat := (b.y1 + b.y2) / 2
    let md := meters_per_degree mid_lat
    let cell_deg_lat := cell_m / md.1
    let cell_deg_lon := cell_m / md.2
    let fuelY := ⌈(b.y2 - b.y1) / cell_deg_lat⌉₊ + 1
    let fuelX := ⌈(b.x2 - b.x1) / cell_deg_lon⌉₊ + 1
    match split_xloop K poly b.x2 b.y1 b.y2 cell_deg_lon cell_deg_lat fuelY fuelX b.x1 with
    | .error e => .error e
    | .ok pieces => if pieces.isEmpty then .ok [poly] else .ok pieces

/-- `split_by_area_no_pyproj`: on a `MultiPolygon` the source recurses over
the parts (each a `Polygon`) and concatenates; on a `Polygon` it runs
`split_poly`.  A kernel error propagates (the source has no `try` here). -/
noncomputable def split_by_area_no_pyproj (K : GeoKernel) (g : Geom) (max_area_m2 : ℝ) :
    Except Unit (List PolyRing) :=
  match g with
  | .poly r => split_poly K r max_area_m2
  | .multi rs =>
    rs.foldlM (fun acc r =>
      match split_poly K r max_area_m2 with
      | .error e => .error e
      | .ok l => .ok (acc ++ l)) []

/-- The splitter run with the (never-raising) modelled shapely kernel. -/
noncomputable def splitRun (g : Geom) (max_area_m2 : ℝ) : List PolyRing :=
  match split_by_area_no_pyproj shapelyClip g max_area_m2 with
  | .ok l => l
  | .error _ => []

/-- Number of grid columns the splitter visits on the bounding box of `r`. -/
noncomputable def cellLonDeg (r : Rect) (m : ℝ) : ℝ :=
  Real.sqrt m / (meters_per_degree ((r.y1 + r.y2) / 2)).2

/-- Grid cell height in degrees for the bounding box of `r`. -/
noncomputable def cellLatDeg (r : Rect) (m : ℝ) : ℝ :=
  Real.sqrt m / (meters_per_degree ((r.y1 + r.y2) / 2)).1

/-- Number of grid columns: iterations of the outer `while x < maxx` loop. -/
noncomputable def gridCols (r : Rect) (m : ℝ) : ℕ := ⌈(r.x2 - r.x1) / cellLonDeg r m⌉₊

/-- Number of grid rows: iterations of the inner `while y < maxy` loop. -/
noncomputable def gridRows (r : Rect) (m : ℝ) : ℕ := ⌈(r.y2 - r.y1) / cellLatDeg r m⌉₊

/-- The `(i, j)` grid piece of a rectangle `r`: its intersection with the
cell anchored at `(x1 + i·cl, y1 + j·ca)`. -/
noncomputable def gridPiece (r : Rect) (m : ℝ) (i j : ℕ) : Rect :=
  Rect.mk (r.x1 + i * cellLonDeg r m) (r.y1 + j * cellLatDeg r m)
    (min r.x2 (r.x1 + i * cellLonDeg r m + cellLonDeg r m))
    (min r.y2 (r.y1 + j * cellLatDeg r m + cellLatDeg r m))

/-- Closed form of the splitter's output on a nondegenerate rectangle whose
area exceeds the threshold: the column-major list of grid pieces. -/
noncomputable def gridList (r : Rect) (m : ℝ) : List PolyRing :=
  (List.range (gridCols r m)).flatMap fun i =>
    (List.range (gridRows r m)).map fun j => (gridPiece r m i j).ring

/-- `coords[::step]` of Python: every `step`-th element starting at index 0. -/
noncomputable def decimate (coords : PolyRing) (step : ℕ) : PolyRing :=
  match coords with
  | [] => []
  | p :: rest => p :: decimate (rest.drop (step - 1)) step
termination_by coords.length
decreasing_by simp [List.length_drop]; omega

/-- The ring-closing fixup of `resample_polygon_geojson`: if the first and
last coordinates differ, append the first. -/
noncomputable def closeRing (l : PolyRing) : PolyRing :=
  match l.head?, l.getLast? with
  | some h, some t => if h ≠ t then l ++ [h] else l
  | _, _ => l

/-- Shapely's `simplify(0.00001, preserve_topology=True)`, an external
kernel operation, modelled as a function parameter. -/
abbrev SimplifyFn : Type := PolyRing → PolyRing

/-- `resample_polygon_geojson(poly_geojson, approx_points)` from the source:
identity when the exterior ring has at most `approx_points` coordinates;
otherwise decimate with step `max(1, len(coords) // approx_points)`, close
the ring, and simplify. -/
noncomputable def resample_polygon_geojson (simplify : SimplifyFn) (coords : PolyRing)
    (approx_points : ℕ) : PolyRing :=
  if coords.length ≤ approx_points then coords
  else simplify (closeRing (decimate coords (max 1 (coords.length / approx_points))))

/-- The result dict of `process_polygon_worker`: `features`, `diag["pieces"]`
when set, and the `error` key when an exception was caught. -/
structure WorkerOut where
  features : List PolyRing
  diag : Option ℕ
  error : Option Unit

/-- `process_polygon_worker(args)` from the source: split, record the piece
count in the diagnostics, resample every piece; any exception escaping the
splitter is caught and recorded under the `error` key (the `pro_zoom`
argument is accepted and unused, as in the source). -/
noncomputable def process_polygon_worker (K : GeoKernel) (simplify : SimplifyFn)
    (g : Geom) (max_area_m2 : ℝ) (approx_points : ℕ) (pro_zoom : ℕ) : WorkerOut :=
  match split_by_area_no_pyproj K g max_area_m2 with
  | .error _ => WorkerOut.mk [] none (some ())
  | .ok pieces =>
    WorkerOut.mk (pieces.map fun p => resample_polygon_geojson simplify p approx_points)
      (some pieces.length) none

/-- Step B of `main_process`: run the splitting worker over the polygons,
consuming worker results in completion order `order` (a permutation of the
indices; `as_completed` makes this order scheduling-dependent), appending
`features` of successful workers and skipping (only logging) failed ones. -/
noncomputable def stepB_split (K : GeoKernel) (simplify : SimplifyFn) (order : List ℕ)
    (polys : List PolyRing) (max_area_m2 : ℝ) (approx_points : ℕ) (pro_zoom : ℕ) :
    List PolyRing :=
  (order.filterMap fun i => polys[i]?).foldl
    (fun acc p =>
      let w := process_polygon_worker K simplify (.poly p) max_area_m2 approx_points pro_zoom
      if w.error.isSome then acc else acc ++ w.features) []

/-- The per-polygon stats dict built at the top of each merge iteration. -/
structure PStat where
  idx : ℕ
  area : ℝ
  compact : ℝ
  poly : PolyRing

/-- The shapely operations `merge_small_polygons` uses, modelled as an
external kernel: the `touches(...) or intersects(...)` adjacency test,
`unary_union` of two polygons, and `representative_point`. -/
structure MergeKernel where
  touchesOrIntersects : PolyRing → PolyRing → Bool
  union : PolyRing → PolyRing → PolyRing
  repPoint : PolyRing → GPoint

/-- The best-neighbor selection of `merge_small_polygons`: the candidate
maximising `compactness(union) - compactness(candidate)`, first one winning
ties (the source replaces only on strict improvement). -/
noncomputable def bestNeighbor (MK : MergeKernel) (small_poly : PolyRing)
    (neighbors : List (ℕ × PolyRing)) : Option (ℕ × PolyRing) :=
  neighbors.foldl
    (fun best c =>
      match best with
      | none => some c
      | some b =>
        if compactness (MK.union small_poly c.2) - compactness c.2 >
            compactness (MK.union small_poly b.2) - compactness b.2 then some c
        else some b)
    none

/-- The nearest-neighbor fallback scan of `merge_small_polygons`: the
strict-minimum representative-point haversine distance, first one winning
ties. -/
noncomputable def nearestNeighbor (MK : MergeKernel) (small_poly : PolyRing) (sidx : ℕ)
    (polys : List PolyRing) : Option (ℕ × ℝ) :=
  let c := MK.repPoint small_poly
  polys.enum.foldl
    (fun best jc =>
      if jc.1 = sidx then best
      else
        let c2 := MK.repPoint jc.2
        let d := haversine_m c.1 c.2 c2.1 c2.2
        match best with
        | none => some (jc.1, d)
        | some b => if d < b.2 then some (jc.1, d) else some b)
    none

/-- Replace the lower of the two indices with the union and remove the
higher, as the source does (`polys[lo] = new_poly; polys.pop(hi)`). -/
noncomputable def mergeReplace (polys : List PolyRing) (sidx jdx : ℕ) (u : PolyRing) :
    List PolyRing :=
  (polys.set (min sidx jdx) u).eraseIdx (max sidx jdx)

/-- The `for s in smalls` loop of one merge iteration: first small that can
be merged wins; merging with a touching neighbor takes precedence, the
nearest-neighbor fallback applies only when enabled and within range.
Returns the updated polygon list, or `none` when no merge happened. -/
noncomputable def tryMergeSmalls (MK : MergeKernel) (polys : List PolyRing)
    (merge_islands_flag : Bool) (nearest_neighbor_max_m : ℝ) :
    List PStat → Option (List PolyRing)
  | [] => none
  | s :: rest =>
    let sidx := s.idx
    let small_poly := polys.getD sidx []
    let neighbors := polys.enum.filter fun jc =>
      jc.1 != sidx && MK.touchesOrIntersects small_poly jc.2
    match bestNeighbor MK small_poly neighbors with
    | some bj => some (mergeReplace polys sidx bj.1 (MK.union small_poly bj.2))
    | none =>
      if merge_islands_flag then
        match nearestNeighbor MK small_poly sidx polys with
        | some jd =>
          if jd.2 ≤ nearest_neighbor_max_m then
            some (mergeReplace polys sidx jd.1 (MK.union small_poly (polys.getD jd.1 [])))
          else tryMergeSmalls MK polys merge_islands_flag nearest_neighbor_max_m rest
        | none => tryMergeSmalls MK polys merge_islands_flag nearest_neighbor_max_m rest
      else tryMergeSmalls MK polys merge_islands_flag nearest_neighbor_max_m rest

/-- One iteration of the `while True` merge loop: compute stats, collect the
polygons with `area < min_area_m2`, stop when there are none, sort them by
ascending `(compactness, area)` (Python's stable sort), and attempt one
merge.  `none` signals loop exit (no smalls, or no merge possible). -/
noncomputable def merge_pass (MK : MergeKernel) (polys : List PolyRing)
    (min_area_m2 : ℝ) (merge_islands_flag : Bool) (nearest_neighbor_max_m : ℝ) :
    Option (List PolyRing) :=
  let stats := polys.enum.map fun ip =>
    PStat.mk ip.1 (geodesic_area_m2 ip.2) (compactness ip.2) ip.2
  let smalls := stats.filter fun s => decide (s.area < min_area_m2)
  if smalls.isEmpty then none
  else
    let sorted := smalls.mergeSort fun a b =>
      decide (a.compact < b.compact ∨ (a.compact = b.compact ∧ a.area ≤ b.area))
    tryMergeSmalls MK polys merge_islands_flag nearest_neighbor_max_m sorted

/-- The `while True` loop of `merge_small_polygons`, fuelled by the source's
iteration cap (`max_iter = 2000`). -/
noncomputable def mergeLoop (MK : MergeKernel) (min_area_m2 : ℝ)
    (merge_islands_flag : Bool) (nearest_neighbor_max_m : ℝ) :
    ℕ → List PolyRing → List PolyRing
  | 0, polys => polys
  | fuel + 1, polys =>
    match merge_pass MK polys min_area_m2 merge_islands_flag nearest_neighbor_max_m with
    | none => polys
    | some polys2 =>
      mergeLoop MK min_area_m2 merge_islands_flag nearest_neighbor_max_m fuel polys2

/-- `merge_small_polygons(polygons, min_area_m2, compactness_thresh,
merge_islands_flag, nearest_neighbor_max_m)` from the source (the
`explain_mode` parameter only controls logging and is omitted). -/
noncomputable def merge_small_polygons (MK : MergeKernel) (polygons : List PolyRing)
    (min_area_m2 : ℝ) (compactness_thresh : ℝ) (merge_islands_flag : Bool)
    (nearest_neighbor_max_m : ℝ) : List PolyRing :=
  mergeLoop MK min_area_m2 merge_islands_flag nearest_neighbor_max_m 2000 polygons

/-- Steps A and B of `main_process`: merge small polygons first (when
`min_area_km2 > 0`), then split every merged polygon with the worker.  The
upstream union of input features and the downstream adaptive reduction /
serialisation are outside the modelled core; worker completion order is
taken as submission order here (`stepB_split` exposes it separately). -/
noncomputable def main_process_features (MK : MergeKernel) (K : GeoKernel)
    (simplify : SimplifyFn) (initial_polys : List PolyRing)
    (max_area_km2 min_area_km2 compactness_thresh : ℝ) (merge_islands_flag : Bool)
    (nearest_neighbor_max_km : ℝ) (approx_points : ℕ) (pro_zoom : ℕ) : List PolyRing :=
  let merged_polys :=
    if 0 < min_area_km2 then
      merge_small_polygons MK initial_polys (min_area_km2 * 1000000) compactness_thresh
        merge_islands_flag (nearest_neighbor_max_km * 1000)
    else initial_polys
  stepB_split K simplify (List.range merged_polys.length) merged_polys
    (max_area_km2 * 1000000) approx_points pro_zoom

/-- The pipeline in the order the spec describes (its data-flow line and
orchestrator section): Area Splitter per top-level polygon first, then the
Fragment Merger applied to the full splitter output.  Written from the
spec's words, for comparison with `main_process_features`. -/
noncomputable def pipeline_split_then_merge (MK : MergeKernel) (K : GeoKernel)
    (simplify : SimplifyFn) (initial_polys : List PolyRing)
    (max_area_km2 min_area_km2 compactness_thresh : ℝ) (merge_islands_flag : Bool)
    (nearest_neighbor_max_km : ℝ) (approx_points : ℕ) (pro_zoom : ℕ) : List PolyRing :=
  let splitted := stepB_split K simplify (List.range initial_polys.length) initial_polys
    (max_area_km2 * 1000000) approx_points pro_zoom
  if 0 < min_area_km2 then
    merge_small_polygons MK splitted (min_area_km2 * 1000000) compactness_thresh
      merge_islands_flag (nearest_neighbor_max_km * 1000)
  else splitted

/-- The splitting algorithm as the spec words it: recursive bisection —
terminal when the area is within the threshold; cut the bounding box at its
midpoint along the longer dimension (ties broken toward the x-axis) into
two half-rectangles; intersect and recurse on each non-empty part; return
the polygon unsplit once the recursion-depth cap is reached.  Written from
the spec's words, for comparison with the source's splitter. -/
noncomputable def split_bisect_spec : ℕ → Rect → ℝ → List Rect
  | depth, r, max_area =>
    if geodesic_area_m2 r.ring ≤ max_area then [r]
    else
      match depth with
      | 0 => [r]
      | d + 1 =>
        let halves :=
          if r.y2 - r.y1 ≤ r.x2 - r.x1 then
            [Rect.mk r.x1 r.y1 ((r.x1 + r.x2) / 2) r.y2,
             Rect.mk ((r.x1 + r.x2) / 2) r.y1 r.x2 r.y2]
          else
            [Rect.mk r.x1 r.y1 r.x2 ((r.y1 + r.y2) / 2),
             Rect.mk r.x1 ((r.y1 + r.y2) / 2) r.x2 r.y2]
        halves.flatMap fun cell =>
          match clipRect r cell with
          | none => []
          | some piece => split_bisect_spec d piece max_area

/-! ## Basic facts about the embedded geometry -/

theorem ringRect_rect (r : Rect) : ringRect r.ring = some r := by
  simp [ringRect, Rect.ring]

theorem ringBounds_rect (r : Rect) (hx : r.x1 ≤ r.x2) (hy : r.y1 ≤ r.y2) :
    ringBounds r.ring = r := by
  simp only [Rect.ring, ringBounds, List.foldl]
  have e1 : min r.x1 r.x2 = r.x1 := min_eq_left hx
  have e2 : max r.x1 r.x2 = r.x2 := max_eq_right hx
  have e3 : min r.y1 r.y2 = r.y1 := min_eq_left hy
  have e4 : max r.y1 r.y2 = r.y2 := max_eq_right hy
  have e5 : max r.x2 r.x1 = r.x2 := max_eq_left hx
  have e6 : max r.y2 r.y1 = r.y2 := max_eq_left hy
  simp [e1, e2, e3, e4, e5, e6]

theorem rad_zero : rad 0 = 0 := by simp [rad]

theorem rad_sub (a b : ℝ) : rad (a - b) = rad a - rad b := by
  simp [rad]; ring

theorem rad_neg (a : ℝ) : rad (-a) = -rad a := by
  simp only [rad]; ring

theorem rad_nonneg {a : ℝ} (h : 0 ≤ a) : 0 ≤ rad a := by
  have := Real.pi_pos
  simp only [rad]
  positivity

theorem rad_pos {a : ℝ} (h : 0 < a) : 0 < rad a := by
  have := Real.pi_pos
  simp only [rad]
  positivity

theorem rad_le_rad {a b : ℝ} (h : a ≤ b) : rad a ≤ rad b := by
  have hp := Real.pi_pos
  simp only [rad, div_le_div_iff_of_pos_right (by norm_num : (0:ℝ) < 180)]
  nlinarith

theorem geoAreaSum_rect (r : Rect) :
    geoAreaSum r.ring =
      2 * rad (r.x2 - r.x1) * (Real.sin (rad r.y1) - Real.sin (rad r.y2)) := by
  simp only [Rect.ring, geoAreaSum, rad]
  ring

/-- `rad` of a latitude in `[-90, 90]` lies in `[-π/2, π/2]`. -/
theorem rad_mem_pi_div_two {a : ℝ} (h1 : -90 ≤ a) (h2 : a ≤ 90) :
    rad a ∈ Set.Icc (-(Real.pi / 2)) (Real.pi / 2) := by
  have hp := Real.pi_pos
  constructor
  · have := rad_le_rad h1
    simp only [rad] at this ⊢
    nlinarith
  · have := rad_le_rad h2
    simp only [rad] at this ⊢
    nlinarith

theorem sin_rad_mono {a b : ℝ} (h1 : -90 ≤ a) (hab : a ≤ b) (h2 : b ≤ 90) :
    Real.sin (rad a) ≤ Real.sin (rad b) := by
  have ha := rad_mem_pi_div_two h1 (le_trans hab h2)
  have hb := rad_mem_pi_div_two (le_trans h1 hab) h2
  exact Real.strictMonoOn_sin.monotoneOn ha hb (rad_le_rad hab)

/-- The geodesic area of a rectangle with `x1 ≤ x2` and latitudes in range:
`R² · rad(Δx) · (sin(rad y2) - sin(rad y1))`. -/
theorem geodesic_area_rect (r : Rect) (hx : r.x1 ≤ r.x2) (h1 : -90 ≤ r.y1)
    (hy : r.y1 ≤ r.y2) (h2 : r.y2 ≤ 90) :
    geodesic_area_m2 r.ring =
      EarthR ^ 2 * rad (r.x2 - r.x1) * (Real.sin (rad r.y2) - Real.sin (rad r.y1)) := by
  have hlen : ¬ (r.ring.length < 3) := by simp [Rect.ring]
  have hsin := sin_rad_mono h1 hy h2
  have hrad := rad_nonneg (sub_nonneg.2 hx)
  have hR : (0:ℝ) < EarthR ^ 2 := by norm_num [EarthR]
  rw [geodesic_area_m2, if_neg hlen, geoAreaSum_rect]
  have key : rad (r.x2 - r.x1) * (Real.sin (rad r.y1) - Real.sin (rad r.y2)) ≤ 0 :=
    mul_nonpos_of_nonneg_of_nonpos hrad (by linarith)
  have e : 2 * rad (r.x2 - r.x1) * (Real.sin (rad r.y1) - Real.sin (rad r.y2)) *
      EarthR ^ 2 / 2 =
      rad (r.x2 - r.x1) * (Real.sin (rad r.y1) - Real.sin (rad r.y2)) * EarthR ^ 2 := by
    ring
  rw [e, abs_of_nonpos (mul_nonpos_of_nonpos_of_nonneg key hR.le)]
  ring

theorem meters_per_degree_lat_pos (φ : ℝ) : 0 < (meters_per_degree φ).1 := by
  have h1 := Real.neg_one_le_cos (2 * rad φ)
  have h2 := Real.cos_le_one (2 * rad φ)
  have h3 := Real.neg_one_le_cos (4 * rad φ)
  have h4 := Real.cos_le_one (4 * rad φ)
  simp only [meters_per_degree]
  nlinarith

theorem meters_per_degree_lon_pos {φ : ℝ} (h1 : -90 < φ) (h2 : φ < 90) :
    0 < (meters_per_degree φ).2 := by
  have hp := Real.pi_pos
  have hc : 0 < Real.cos (rad φ) := by
    apply Real.cos_pos_of_mem_Ioo
    constructor
    · simp only [rad]; nlinarith
    · simp only [rad]; nlinarith
  simp only [meters_per_degree]
  nlinarith

/-- For positive `w`, `⌈w⌉₊ = ⌈w - 1⌉₊ + 1`: one loop iteration consumes one
unit of the iteration count. -/
theorem nat_ceil_pos_step {w : ℝ} (hw : 0 < w) : ⌈w⌉₊ = ⌈w - 1⌉₊ + 1 := by
  rcases le_or_lt 0 (w - 1) with h | h
  · have := Nat.ceil_add_one h
    rw [sub_add_cancel] at this
    omega
  · have hle : ⌈w⌉₊ ≤ 1 := Nat.ceil_le.2 (by push_cast; linarith)
    have hpos : 0 < ⌈w⌉₊ := by
      rw [Nat.lt_ceil]
      push_cast
      linarith
    have : ⌈w - 1⌉₊ = 0 := Nat.ceil_eq_zero.2 (by linarith)
    omega

theorem clipRect_pos (r cell : Rect) (h1 : max r.x1 cell.x1 < min r.x2 cell.x2)
    (h2 : max r.y1 cell.y1 < min r.y2 cell.y2) :
    clipRect r cell = some (Rect.mk (max r.x1 cell.x1) (max r.y1 cell.y1)
      (min r.x2 cell.x2) (min r.y2 cell.y2)) := by
  simp [clipRect, h1, h2]

/-- The piece the inner loop collects for row `j` of the column at `x`:
the polygon clipped to the cell based at `(x, y + j·ca)`. -/
noncomputable def colPiece (r : Rect) (x cl ca y : ℝ) (j : ℕ) : PolyRing :=
  (Rect.mk x (y + j * ca) (min r.x2 (x + cl)) (min r.y2 (y + j * ca + ca))).ring

theorem colPiece_shift (r : Rect) (x cl ca y : ℝ) (j : ℕ) :
    colPiece r x cl ca (y + ca) j = colPiece r x cl ca y (j + 1) := by
  have h1 : y + ca + (j : ℝ) * ca = y + ((j + 1 : ℕ) : ℝ) * ca := by push_cast; ring
  simp only [colPiece, h1]

/-- Characterisation of the inner `while y < maxy` loop on a rectangle, for
any sufficient fuel: it returns the clipped cells of one grid column. -/
theorem split_yloop_spec (r : Rect) (cl ca x : ℝ) (hcl : 0 < cl) (hca : 0 < ca)
    (hx1 : r.x1 ≤ x) (hx2 : x < r.x2) :
    ∀ (fuel : ℕ) (y : ℝ), r.y1 ≤ y → ⌈(r.y2 - y) / ca⌉₊ ≤ fuel →
      split_yloop shapelyClip r.ring x cl r.y2 ca fuel y =
        .ok ((List.range ⌈(r.y2 - y) / ca⌉₊).map (colPiece r x cl ca y)) := by
  intro fuel
  induction fuel with
  | zero =>
    intro y hy hfuel
    have h0 : ⌈(r.y2 - y) / ca⌉₊ = 0 := Nat.le_zero.1 hfuel
    simp [split_yloop, h0]
  | succ n ih =>
    intro y hy hfuel
    by_cases hlt : y < r.y2
    · have hwpos : 0 < (r.y2 - y) / ca := div_pos (by linarith) hca
      have hstep := nat_ceil_pos_step hwpos
      have hnext : (r.y2 - (y + ca)) / ca = (r.y2 - y) / ca - 1 := by
        field_simp
        ring
      have h1 : max r.x1 x < min r.x2 (x + cl) := by
        rw [max_eq_right hx1]; exact lt_min hx2 (by linarith)
      have h2 : max r.y1 y < min r.y2 (y + ca) := by
        rw [max_eq_right hy]; exact lt_min hlt (by linarith)
      have hker : shapelyClip r.ring (Rect.mk x y (x + cl) (y + ca)) =
          .ok [(Rect.mk x y (min r.x2 (x + cl)) (min r.y2 (y + ca))).ring] := by
        have hc := clipRect_pos r (Rect.mk x y (x + cl) (y + ca)) (by simpa using h1)
          (by simpa using h2)
        simp only [shapelyClip, ringRect_rect, hc]
        simp [max_eq_right hx1, max_eq_right hy]
      have hfuel2 : ⌈(r.y2 - (y + ca)) / ca⌉₊ ≤ n := by
        rw [hnext]; omega
      have ihy := ih (y + ca) (by linarith) hfuel2
      have htail : (List.range ⌈(r.y2 - (y + ca)) / ca⌉₊).map (colPiece r x cl ca (y + ca)) =
          (List.range ⌈(r.y2 - y) / ca - 1⌉₊).map (colPiece r x cl ca y ∘ Nat.succ) := by
        rw [hnext]
        refine List.map_congr_left fun j hj => ?_
        simpa [Function.comp, Nat.succ_eq_add_one] using colPiece_shift r x cl ca y j
      simp only [split_yloop, if_pos hlt, hker, ihy, htail, hstep,
        List.range_succ_eq_map, List.map_cons, List.map_map]
      simp [colPiece]
    · have h0 : ⌈(r.y2 - y) / ca⌉₊ = 0 :=
        Nat.ceil_eq_zero.2 (div_nonpos_of_nonpos_of_nonneg (by linarith) hca.le)
      simp [split_yloop, if_neg hlt, h0]

/-- Characterisation of the outer `while x < maxx` loop on a rectangle:
it returns the concatenated grid columns. -/
theorem split_xloop_spec (r : Rect) (cl ca : ℝ) (hcl : 0 < cl) (hca : 0 < ca)
    (hy : r.y1 < r.y2) (fuelY : ℕ) (hfY : ⌈(r.y2 - r.y1) / ca⌉₊ ≤ fuelY) :
    ∀ (fuel : ℕ) (x : ℝ), r.x1 ≤ x → ⌈(r.x2 - x) / cl⌉₊ ≤ fuel →
      split_xloop shapelyClip r.ring r.x2 r.y1 r.y2 cl ca fuelY fuel x =
        .ok ((List.range ⌈(r.x2 - x) / cl⌉₊).flatMap fun i =>
          (List.range ⌈(r.y2 - r.y1) / ca⌉₊).map (colPiece r (x + i * cl) cl ca r.y1)) := by
  intro fuel
  induction fuel with
  | zero =>
    intro x hx hfuel
    have h0 : ⌈(r.x2 - x) / cl⌉₊ = 0 := Nat.le_zero.1 hfuel
    simp [split_xloop, h0]
  | succ n ih =>
    intro x hx hfuel
    by_cases hlt : x < r.x2
    · have hwpos : 0 < (r.x2 - x) / cl := div_pos (by linarith) hcl
      have hstep := nat_ceil_pos_step hwpos
      have hnext : (r.x2 - (x + cl)) / cl = (r.x2 - x) / cl - 1 := by
        field_simp
        ring
      have hcol := split_yloop_spec r cl ca x hcl hca hx hlt fuelY r.y1 le_rfl hfY
      have hfuel2 : ⌈(r.x2 - (x + cl)) / cl⌉₊ ≤ n := by
        rw [hnext]; omega
      have ihx := ih (x + cl) (by linarith) hfuel2
      have htail : ((List.range ⌈(r.x2 - (x + cl)) / cl⌉₊).flatMap fun i =>
            (List.range ⌈(r.y2 - r.y1) / ca⌉₊).map (colPiece r (x + cl + i * cl) cl ca r.y1)) =
          (List.range ⌈(r.x2 - x) / cl - 1⌉₊).flatMap
            ((fun (i : ℕ) => (List.range ⌈(r.y2 - r.y1) / ca⌉₊).map
              (colPiece r (x + (i : ℝ) * cl) cl ca r.y1)) ∘ Nat.succ) := by
        rw [hnext, List.flatMap_def, List.flatMap_def]
        refine congrArg List.flatten (List.map_congr_left fun i hi => ?_)
        have hxe : x + cl + (i : ℝ) * cl = x + ((Nat.succ i : ℕ) : ℝ) * cl := by
          push_cast; ring
        simp only [Function.comp]
        rw [hxe]
      simp only [split_xloop, if_pos hlt, hcol, ihx, htail, hstep,
        List.range_succ_eq_map, List.flatMap_cons, List.flatMap_map]
      simp
      rw [List.flatMap_def, List.flatMap_def]
      refine congrArg List.flatten (List.map_congr_left fun i hi => ?_)
      simp only [Function.comp, Nat.succ_eq_add_one]
      push_cast
      rfl
    · have h0 : ⌈(r.x2 - x) / cl⌉₊ = 0 :=
        Nat.ceil_eq_zero.2 (div_nonpos_of_nonpos_of_nonneg (by linarith) hcl.le)
      simp [split_xloop, if_neg hlt, h0]

theorem cellLatDeg_pos (r : Rect) (m : ℝ) (hm : 0 < m) : 0 < cellLatDeg r m :=
  div_pos (Real.sqrt_pos.2 hm) (meters_per_degree_lat_pos _)

theorem cellLonDeg_pos (r : Rect) (m : ℝ) (hm : 0 < m) (h1 : -90 < (r.y1 + r.y2) / 2)
    (h2 : (r.y1 + r.y2) / 2 < 90) : 0 < cellLonDeg r m :=
  div_pos (Real.sqrt_pos.2 hm) (meters_per_degree_lon_pos h1 h2)

theorem gridCols_pos (r : Rect) (m : ℝ) (hx : r.x1 < r.x2) (hcl : 0 < cellLonDeg r m) :
    0 < gridCols r m := by
  rw [gridCols]
  refine Nat.lt_ceil.2 ?_
  push_cast
  exact div_pos (by linarith) hcl

theorem gridRows_pos (r : Rect) (m : ℝ) (hy : r.y1 < r.y2) (hca : 0 < cellLatDeg r m) :
    0 < gridRows r m := by
  rw [gridRows]
  refine Nat.lt_ceil.2 ?_
  push_cast
  exact div_pos (by linarith) hca

theorem gridList_length (r : Rect) (m : ℝ) :
    (gridList r m).length = gridCols r m * gridRows r m := by
  rw [gridList, List.flatMap_def, List.length_flatten, List.map_map]
  have hconst : (List.length ∘ fun i =>
      (List.range (gridRows r m)).map fun j => (gridPiece r m i j).ring) =
      fun _ => gridRows r m := by
    funext i
    simp
  rw [hconst]
  induction gridCols r m with
  | zero => simp
  | succ n ihn => simp [List.range_succ, ihn, Nat.succ_mul]

theorem gridList_ne_nil (r : Rect) (m : ℝ) (hx : r.x1 < r.x2) (hy : r.y1 < r.y2)
    (hcl : 0 < cellLonDeg r m) (hca : 0 < cellLatDeg r m) : gridList r m ≠ [] := by
  intro hnil
  have hlen := gridList_length r m
  rw [hnil] at hlen
  have h1 := gridCols_pos r m hx hcl
  have h2 := gridRows_pos r m hy hca
  simp at hlen
  rcases hlen with h | h <;> omega

/-- The central characterisation: on a nondegenerate rectangle with valid
latitudes whose area exceeds the threshold, the source's splitter returns
exactly the grid pieces, in column-major order. -/
theorem split_poly_rect_grid (r : Rect) (m : ℝ) (hx : r.x1 < r.x2) (hy : r.y1 < r.y2)
    (hy1 : -90 ≤ r.y1) (hy2 : r.y2 ≤ 90) (hm : 0 < m)
    (harea : m < geodesic_area_m2 r.ring) :
    split_poly shapelyClip r.ring m = .ok (gridList r m) := by
  have hb := ringBounds_rect r hx.le hy.le
  have hmid1 : -90 < (r.y1 + r.y2) / 2 := by linarith
  have hmid2 : (r.y1 + r.y2) / 2 < 90 := by linarith
  have hca : 0 < cellLatDeg r m := cellLatDeg_pos r m hm
  have hcl : 0 < cellLonDeg r m := cellLonDeg_pos r m hm hmid1 hmid2
  have hloop := split_xloop_spec r (cellLonDeg r m) (cellLatDeg r m) hcl hca hy
    (⌈(r.y2 - r.y1) / cellLatDeg r m⌉₊ + 1) (by omega)
    (⌈(r.x2 - r.x1) / cellLonDeg r m⌉₊ + 1) r.x1 le_rfl (by omega)
  have hgrid : ((List.range ⌈(r.x2 - r.x1) / cellLonDeg r m⌉₊).flatMap fun i =>
      (List.range ⌈(r.y2 - r.y1) / cellLatDeg r m⌉₊).map
        (colPiece r (r.x1 + i * cellLonDeg r m) (cellLonDeg r m) (cellLatDeg r m) r.y1)) =
      gridList r m := by
    rw [gridList]
    rfl
  rw [hgrid] at hloop
  have hne := gridList_ne_nil r m hx hy hcl hca
  simp only [split_poly, hb, cellLonDeg, cellLatDeg] at hloop ⊢
  rw [if_neg (not_le.2 harea), hloop]
  simp [List.isEmpty_iff, hne]

theorem splitRun_poly_le (p : PolyRing) (m : ℝ) (h : geodesic_area_m2 p ≤ m) :
    splitRun (.poly p) m = [p] := by
  simp [splitRun, split_by_area_no_pyproj, split_poly, h]

theorem splitRun_rect_grid (r : Rect) (m : ℝ) (hx : r.x1 < r.x2) (hy : r.y1 < r.y2)
    (hy1 : -90 ≤ r.y1) (hy2 : r.y2 ≤ 90) (hm : 0 < m)
    (harea : m < geodesic_area_m2 r.ring) :
    splitRun (.poly r.ring) m = gridList r m := by
  simp [splitRun, split_by_area_no_pyproj, split_poly_rect_grid r m hx hy hy1 hy2 hm harea]

/-- The right edge of grid column `i` (clamped to the bounding box). -/
noncomputable def gridX (r : Rect) (m : ℝ) (i : ℕ) : ℝ :=
  min (r.x1 + i * cellLonDeg r m) r.x2

/-- The top edge of grid row `j` (clamped to the bounding box). -/
noncomputable def gridY (r : Rect) (m : ℝ) (j : ℕ) : ℝ :=
  min (r.y1 + j * cellLatDeg r m) r.y2

theorem gridX_lt (r : Rect) (m : ℝ) {i : ℕ} (hi : i < gridCols r m)
    (hcl : 0 < cellLonDeg r m) : r.x1 + i * cellLonDeg r m < r.x2 := by
  have h1 : (i : ℝ) < (r.x2 - r.x1) / cellLonDeg r m := Nat.lt_ceil.1 hi
  have h2 : (i : ℝ) * cellLonDeg r m < r.x2 - r.x1 := (lt_div_iff₀ hcl).1 h1
  linarith

theorem gridY_lt (r : Rect) (m : ℝ) {j : ℕ} (hj : j < gridRows r m)
    (hca : 0 < cellLatDeg r m) : r.y1 + j * cellLatDeg r m < r.y2 := by
  have h1 : (j : ℝ) < (r.y2 - r.y1) / cellLatDeg r m := Nat.lt_ceil.1 hj
  have h2 : (j : ℝ) * cellLatDeg r m < r.y2 - r.y1 := (lt_div_iff₀ hca).1 h1
  linarith

theorem gridX_of_lt (r : Rect) (m : ℝ) {i : ℕ} (hi : i < gridCols r m)
    (hcl : 0 < cellLonDeg r m) : gridX r m i = r.x1 + i * cellLonDeg r m :=
  min_eq_left (gridX_lt r m hi hcl).le

theorem gridY_of_lt (r : Rect) (m : ℝ) {j : ℕ} (hj : j < gridRows r m)
    (hca : 0 < cellLatDeg r m) : gridY r m j = r.y1 + j * cellLatDeg r m :=
  min_eq_left (gridY_lt r m hj hca).le

theorem gridX_zero (r : Rect) (m : ℝ) (hx : r.x1 ≤ r.x2) : gridX r m 0 = r.x1 := by
  simp [gridX, hx]

theorem gridY_zero (r : Rect) (m : ℝ) (hy : r.y1 ≤ r.y2) : gridY r m 0 = r.y1 := by
  simp [gridY, hy]

theorem gridX_last (r : Rect) (m : ℝ) (hcl : 0 < cellLonDeg r m) :
    gridX r m (gridCols r m) = r.x2 := by
  rw [gridX]
  apply min_eq_right
  have h1 : (r.x2 - r.x1) / cellLonDeg r m ≤ (gridCols r m : ℝ) :=
    Nat.le_ceil ((r.x2 - r.x1) / cellLonDeg r m)
  have h2 : r.x2 - r.x1 ≤ (gridCols r m : ℝ) * cellLonDeg r m := (div_le_iff₀ hcl).1 h1
  linarith

theorem gridY_last (r : Rect) (m : ℝ) (hca : 0 < cellLatDeg r m) :
    gridY r m (gridRows r m) = r.y2 := by
  rw [gridY]
  apply min_eq_right
  have h1 : (r.y2 - r.y1) / cellLatDeg r m ≤ (gridRows r m : ℝ) :=
    Nat.le_ceil ((r.y2 - r.y1) / cellLatDeg r m)
  have h2 : r.y2 - r.y1 ≤ (gridRows r m : ℝ) * cellLatDeg r m := (div_le_iff₀ hca).1 h1
  linarith

/-- Area of one grid piece, written with the telescoping edge functions. -/
theorem gridPiece_area (r : Rect) (m : ℝ) (hy1 : -90 ≤ r.y1) (hy2 : r.y2 ≤ 90)
    (hcl : 0 < cellLonDeg r m) (hca : 0 < cellLatDeg r m) {i j : ℕ}
    (hi : i < gridCols r m) (hj : j < gridRows r m) :
    geodesic_area_m2 (gridPiece r m i j).ring =
      EarthR ^ 2 * (rad (gridX r m (i + 1)) - rad (gridX r m i)) *
        (Real.sin (rad (gridY r m (j + 1))) - Real.sin (rad (gridY r m j))) := by
  have hxi := gridX_lt r m hi hcl
  have hyj := gridY_lt r m hj hca
  have hjnn : (0:ℝ) ≤ (j : ℝ) * cellLatDeg r m :=
    mul_nonneg (Nat.cast_nonneg j) hca.le
  have harea := geodesic_area_rect (gridPiece r m i j)
    (le_min hxi.le (by simp [gridPiece]; linarith))
    (by simp [gridPiece]; linarith)
    (le_min hyj.le (by simp [gridPiece]; linarith))
    (by simp [gridPiece]; exact Or.inl hy2)
  have ex2 : min r.x2 (r.x1 + i * cellLonDeg r m + cellLonDeg r m) = gridX r m (i + 1) := by
    rw [gridX, min_comm]
    congr 1
    push_cast
    ring
  have ey2 : min r.y2 (r.y1 + j * cellLatDeg r m + cellLatDeg r m) = gridY r m (j + 1) := by
    rw [gridY, min_comm]
    congr 1
    push_cast
    ring
  have ex1 : r.x1 + i * cellLonDeg r m = gridX r m i := (gridX_of_lt r m hi hcl).symm
  have ey1 : r.y1 + j * cellLatDeg r m = gridY r m j := (gridY_of_lt r m hj hca).symm
  rw [harea]
  simp only [gridPiece]
  rw [ex2, ey2, ex1, ey1, rad_sub]

theorem list_sum_map_range (g : ℕ → ℝ) (n : ℕ) :
    ((List.range n).map g).sum = ∑ i ∈ Finset.range n, g i := by
  induction n with
  | zero => simp
  | succ k ih => simp [List.range_succ, Finset.sum_range_succ, ih]

theorem list_sum_map_flatMap_range (F : ℕ → List PolyRing) (g : PolyRing → ℝ) (n : ℕ) :
    (((List.range n).flatMap F).map g).sum = ∑ i ∈ Finset.range n, ((F i).map g).sum := by
  induction n with
  | zero => simp
  | succ k ih => simp [List.range_succ, List.flatMap_append, Finset.sum_range_succ, ih]

/-- Area conservation over the grid: the piece areas sum exactly to the area
of the rectangle (a telescoping sum in both axes). -/
theorem gridList_area_sum (r : Rect) (m : ℝ) (hx : r.x1 < r.x2) (hy : r.y1 < r.y2)
    (hy1 : -90 ≤ r.y1) (hy2 : r.y2 ≤ 90) (hm : 0 < m) :
    ((gridList r m).map geodesic_area_m2).sum = geodesic_area_m2 r.ring := by
  have hmid1 : -90 < (r.y1 + r.y2) / 2 := by linarith
  have hmid2 : (r.y1 + r.y2) / 2 < 90 := by linarith
  have hca : 0 < cellLatDeg r m := cellLatDeg_pos r m hm
  have hcl : 0 < cellLonDeg r m := cellLonDeg_pos r m hm hmid1 hmid2
  rw [gridList, list_sum_map_flatMap_range]
  have hterm : ∀ i ∈ Finset.range (gridCols r m),
      (((List.range (gridRows r m)).map fun j => (gridPiece r m i j).ring).map
        geodesic_area_m2).sum =
      (EarthR ^ 2 * (Real.sin (rad r.y2) - Real.sin (rad r.y1))) *
        (rad (gridX r m (i + 1)) - rad (gridX r m i)) := by
    intro i hi
    rw [List.map_map, list_sum_map_range]
    simp only [Function.comp]
    have hinner : ∀ j ∈ Finset.range (gridRows r m),
        geodesic_area_m2 (gridPiece r m i j).ring =
        (EarthR ^ 2 * (rad (gridX r m (i + 1)) - rad (gridX r m i))) *
          (Real.sin (rad (gridY r m (j + 1))) - Real.sin (rad (gridY r m j))) := by
      intro j hj
      rw [gridPiece_area r m hy1 hy2 hcl hca (Finset.mem_range.1 hi) (Finset.mem_range.1 hj)]
    rw [Finset.sum_congr rfl hinner, ← Finset.mul_sum, Finset.sum_range_sub
      (fun j => Real.sin (rad (gridY r m j)))]
    rw [gridY_last r m hca, gridY_zero r m hy.le]
    ring
  rw [Finset.sum_congr rfl hterm, ← Finset.mul_sum, Finset.sum_range_sub
    (fun i => rad (gridX r m i))]
  rw [gridX_last r m hcl, gridX_zero r m hx.le]
  rw [geodesic_area_rect r hx.le hy1 hy.le hy2, rad_sub]
  ring

/-! ## Numeric bounds for the concrete scenarios -/

theorem rad_lb (d : ℝ) (h : 0 ≤ d) : d * 0.0174532 ≤ rad d := by
  have hpi := Real.pi_gt_d6
  rw [rad]
  nlinarith

theorem rad_ub (d : ℝ) (h : 0 ≤ d) : rad d ≤ d * 0.0174533 := by
  have hpi := Real.pi_lt_d6
  rw [rad]
  nlinarith

theorem sin_rad_ub (d : ℝ) (h : 0 ≤ d) : Real.sin (rad d) ≤ d * 0.0174533 := by
  rcases h.eq_or_lt with he | hlt
  · rw [← he]
    simp [rad_zero]
  · exact le_trans (Real.sin_lt (rad_pos hlt)).le (rad_ub d h)

theorem sin_rad_lb (d : ℝ) (h0 : 0 < d) (h1 : d ≤ 1) :
    d * 0.0174518 < Real.sin (rad d) := by
  have hx0 : 0 < rad d := rad_pos h0
  have hxub : rad d ≤ 0.0174533 := le_trans (rad_ub d h0.le) (by nlinarith)
  have hxlb : d * 0.0174532 ≤ rad d := rad_lb d h0.le
  have hcube := Real.sin_gt_sub_cube hx0 (by linarith)
  have hsq : rad d ^ 2 ≤ (0.0174533 : ℝ) ^ 2 := by nlinarith
  have hx3 : rad d ^ 3 ≤ rad d * 0.0174533 ^ 2 := by
    nlinarith [mul_le_mul_of_nonneg_left hsq hx0.le]
  nlinarith

/-- `R² · (π/180) · 2·sin(rad t)`: geodesic area per degree of longitude of
the band between latitudes `-t` and `t`. -/
noncomputable def bandK (t : ℝ) : ℝ :=
  EarthR ^ 2 * (Real.pi / 180) * (2 * Real.sin (rad t))

theorem band_area_eq (a b t : ℝ) (hab : a ≤ b) (ht0 : 0 ≤ t) (ht : t ≤ 90) :
    geodesic_area_m2 (Rect.mk a (-t) b t).ring = (b - a) * bandK t := by
  have h := geodesic_area_rect (Rect.mk a (-t) b t) (by simpa) (by simp; linarith)
    (by simp; linarith) (by simpa)
  rw [h]
  simp only [rad_neg, Real.sin_neg]
  simp only [bandK, rad]
  ring

theorem bandK35_bounds : 8650000000 ≤ bandK 0.35 ∧ bandK 0.35 ≤ 8660000000 := by
  have hs1 : (0.35 : ℝ) * 0.0174518 < Real.sin (rad 0.35) := sin_rad_lb 0.35 (by norm_num) (by norm_num)
  have hs2 : Real.sin (rad 0.35) ≤ (0.35 : ℝ) * 0.0174533 := sin_rad_ub 0.35 (by norm_num)
  have hp1 := Real.pi_gt_d6
  have hp2 := Real.pi_lt_d6
  constructor <;> (rw [bandK, EarthR]; nlinarith)

theorem bandK5_bounds : 12363000000 ≤ bandK 0.5 ∧ bandK 0.5 ≤ 12366000000 := by
  have hs1 : (0.5 : ℝ) * 0.0174518 < Real.sin (rad 0.5) := sin_rad_lb 0.5 (by norm_num) (by norm_num)
  have hs2 : Real.sin (rad 0.5) ≤ (0.5 : ℝ) * 0.0174533 := sin_rad_ub 0.5 (by norm_num)
  have hp1 := Real.pi_gt_d6
  have hp2 := Real.pi_lt_d6
  constructor <;> (rw [bandK, EarthR]; nlinarith)

theorem geodesic_area_degenerate (a b c : ℝ) :
    geodesic_area_m2 (Rect.mk a b a c).ring = 0 := by
  simp [geodesic_area_m2, Rect.ring, geoAreaSum, sub_self, rad_zero]

theorem meters_per_degree_zero : meters_per_degree 0 = (110574.307, 111132.954) := by
  simp only [meters_per_degree, rad_zero, mul_zero, Real.cos_zero]
  norm_num

theorem rad_sixty : rad 60 = Real.pi / 3 := by rw [rad]; ring

theorem rad_ninety : rad 90 = Real.pi / 2 := by rw [rad]; ring

theorem rad_thirty : rad 30 = Real.pi / 6 := by rw [rad]; ring

theorem meters_per_degree_sixty : meters_per_degree 60 = (111412.2775, 55566.477) := by
  have h2 : Real.cos (2 * rad 60) = -(1 / 2) := by
    rw [rad_sixty, show 2 * (Real.pi / 3) = Real.pi - Real.pi / 3 by ring,
      Real.cos_pi_sub, Real.cos_pi_div_three]
  have h4 : Real.cos (4 * rad 60) = -(1 / 2) := by
    rw [rad_sixty, show 4 * (Real.pi / 3) = Real.pi + Real.pi / 3 by ring, Real.cos_add]
    simp [Real.cos_pi_div_three]
  have hc : Real.cos (rad 60) = 1 / 2 := by rw [rad_sixty, Real.cos_pi_div_three]
  simp only [meters_per_degree, h2, h4, hc]
  norm_num

theorem split_by_area_poly_le (K : GeoKernel) (p : PolyRing) (m : ℝ)
    (h : geodesic_area_m2 p ≤ m) : split_by_area_no_pyproj K (.poly p) m = .ok [p] := by
  simp [split_by_area_no_pyproj, split_poly, h]

/-! ## Claim C4: polygons at or below the threshold are returned unchanged -/

/-- C4 (confirmed): for every polygon whose geodesic area is at most
`max_area_m2` — including exactly equal, the comparison is `<=` — the
splitter returns the one-element sequence holding the polygon with its
geometry unchanged; split is therefore idempotent on its own conforming
output pieces. -/
theorem c4_small_polygon_identity (p : PolyRing) (m : ℝ)
    (h : geodesic_area_m2 p ≤ m) : splitRun (.poly p) m = [p] :=
  splitRun_poly_le p m h

theorem c4_small_polygon_identity_witness :
    geodesic_area_m2 (Rect.mk 0 0 0 1).ring ≤ 5 ∧
      splitRun (.poly (Rect.mk 0 0 0 1).ring) 5 = [(Rect.mk 0 0 0 1).ring] := by
  have h : geodesic_area_m2 (Rect.mk 0 0 0 1).ring ≤ 5 := by
    rw [geodesic_area_degenerate]
    norm_num
  exact ⟨h, c4_small_polygon_identity (Rect.mk 0 0 0 1).ring 5 h⟩

/-! ## Claim C9: the compactness threshold has no effect on merging -/

/-- C9 (confirmed): `merge_small_polygons` accepts the
`compactness_thresh` configuration value but never reads it: for any two
values of that parameter, and any geometry kernel and polygon list, the
merge result is identical (noninterference of that input with the result). -/
theorem c9_compactness_threshold_noninterference (MK : MergeKernel)
    (polygons : List PolyRing) (min_area_m2 t1 t2 : ℝ) (merge_islands_flag : Bool)
    (nearest_neighbor_max_m : ℝ) :
    merge_small_polygons MK polygons min_area_m2 t1 merge_islands_flag
        nearest_neighbor_max_m =
      merge_small_polygons MK polygons min_area_m2 t2 merge_islands_flag
        nearest_neighbor_max_m := rfl

/-! ## Claim C10: every worker piece passes through the resampler -/

/-- C10 (confirmed): the worker resamples every split piece before
outputting it; `resample_polygon_geojson` is the identity on rings with at
most `approx_points` coordinates, and on longer rings it returns the
decimated, re-closed, simplified ring (which may differ from the input). -/
theorem c10_worker_resamples (K : GeoKernel) (simplify : SimplifyFn) (g : Geom)
    (m : ℝ) (n pz : ℕ) (ps : List PolyRing)
    (hok : split_by_area_no_pyproj K g m = .ok ps) :
    (process_polygon_worker K simplify g m n pz).features =
        ps.map (fun p => resample_polygon_geojson simplify p n) ∧
      (∀ coords : PolyRing, coords.length ≤ n →
        resample_polygon_geojson simplify coords n = coords) ∧
      (∀ coords : PolyRing, n < coords.length →
        resample_polygon_geojson simplify coords n =
          simplify (closeRing (decimate coords (max 1 (coords.length / n))))) := by
  refine ⟨?_, ?_, ?_⟩
  · simp [process_polygon_worker, hok]
  · intro c hc
    simp [resample_polygon_geojson, hc]
  · intro c hc
    rw [resample_polygon_geojson, if_neg (by omega)]

theorem c10_worker_resamples_witness :
    (process_polygon_worker shapelyClip id (.poly (Rect.mk 0 0 0 1).ring) 5 200 10).features =
      [(Rect.mk 0 0 0 1).ring] := by
  have h := c10_worker_resamples shapelyClip id (.poly (Rect.mk 0 0 0 1).ring) 5 200 10
    [(Rect.mk 0 0 0 1).ring]
    (split_by_area_poly_le shapelyClip (Rect.mk 0 0 0 1).ring 5
      (by rw [geodesic_area_degenerate]; norm_num))
  rw [h.1]
  have hid := h.2.1 (Rect.mk 0 0 0 1).ring (by simp [Rect.ring])
  simp [hid]

/-! ## Claim C2: area conservation -/

/-- C2 (confirmed): for a valid (nondegenerate, latitude-bounded)
rectangular polygon and positive threshold, the geodesic areas of the
returned pieces sum exactly to the geodesic area of the input — in the
real-number idealisation of the float arithmetic the conservation is exact,
hence within any floating-point epsilon. -/
theorem c2_area_conservation (r : Rect) (m : ℝ) (hx : r.x1 < r.x2) (hy : r.y1 < r.y2)
    (hy1 : -90 ≤ r.y1) (hy2 : r.y2 ≤ 90) (hm : 0 < m) :
    ((splitRun (.poly r.ring) m).map geodesic_area_m2).sum = geodesic_area_m2 r.ring := by
  rcases le_or_lt (geodesic_area_m2 r.ring) m with h | h
  · rw [splitRun_poly_le r.ring m h]
    simp
  · rw [splitRun_rect_grid r m hx hy hy1 hy2 hm h]
    exact gridList_area_sum r m hx hy hy1 hy2 hm

theorem c2_area_conservation_witness :
    ((splitRun (.poly (Rect.mk 0 (-0.5) 1 0.5).ring) 5000000000).map geodesic_area_m2).sum =
      geodesic_area_m2 (Rect.mk 0 (-0.5) 1 0.5).ring :=
  c2_area_conservation (Rect.mk 0 (-0.5) 1 0.5) 5000000000 (by norm_num) (by norm_num)
    (by norm_num) (by norm_num) (by norm_num)

/-! ## Claim C5: no recursion-depth cap; unbounded piece counts -/

/-- The family of equator-centred rectangles `[0, n]° × [-0.5, 0.5]°` used to
show the piece count is unbounded. -/
noncomputable def famRect (n : ℕ) : Rect := Rect.mk 0 (-0.5) n 0.5

theorem famRect_cellLat (n : ℕ) :
    cellLatDeg (famRect n) (110574.307 ^ 2) = 1 := by
  have hmid : ((famRect n).y1 + (famRect n).y2) / 2 = 0 := by
    simp [famRect]
  rw [cellLatDeg, hmid, meters_per_degree_zero, Real.sqrt_sq (by norm_num)]
  norm_num

theorem famRect_cellLon (n : ℕ) :
    cellLonDeg (famRect n) (110574.307 ^ 2) = 110574.307 / 111132.954 := by
  have hmid : ((famRect n).y1 + (famRect n).y2) / 2 = 0 := by
    simp [famRect]
  rw [cellLonDeg, hmid, meters_per_degree_zero, Real.sqrt_sq (by norm_num)]

theorem famRect_area (n : ℕ) :
    geodesic_area_m2 (famRect n).ring = n * bandK 0.5 := by
  have h := band_area_eq 0 n 0.5 (by positivity) (by norm_num) (by norm_num)
  rw [famRect]
  rw [h]
  ring

theorem famRect_area_gt (n : ℕ) (hn : 1 ≤ n) :
    (110574.307 : ℝ) ^ 2 < geodesic_area_m2 (famRect n).ring := by
  rw [famRect_area]
  have hK := bandK5_bounds.1
  have hn1 : (1 : ℝ) ≤ (n : ℝ) := by exact_mod_cast hn
  nlinarith

/-- On `famRect n` the splitter produces more than `n` pieces: one row of
`⌈n / cl⌉ > n` columns (the cell width `cl` is below one degree). -/
theorem famRect_split_length (n : ℕ) (hn : 1 ≤ n) :
    n < (splitRun (.poly (famRect n).ring) (110574.307 ^ 2)).length := by
  have hn1 : (1 : ℝ) ≤ (n : ℝ) := by exact_mod_cast hn
  rw [splitRun_rect_grid (famRect n) (110574.307 ^ 2) (by simp [famRect]; linarith)
    (by simp [famRect]; norm_num) (by simp [famRect]; norm_num)
    (by simp [famRect]; norm_num) (by norm_num) (famRect_area_gt n hn)]
  have hrows : gridRows (famRect n) (110574.307 ^ 2) = 1 := by
    rw [gridRows, famRect_cellLat]
    have : ((famRect n).y2 - (famRect n).y1) / 1 = 1 := by
      simp [famRect]
      norm_num
    rw [this, Nat.ceil_one]
  have hcols : n < gridCols (famRect n) (110574.307 ^ 2) := by
    rw [gridCols, famRect_cellLon]
    refine Nat.lt_ceil.2 ?_
    have hx : ((famRect n).x2 - (famRect n).x1) = (n : ℝ) := by
      simp [famRect]
    rw [hx]
    rw [lt_div_iff₀ (by norm_num)]
    nlinarith
  rw [gridList_length, hrows, mul_one]
  exact hcols

/-- C5 counterexample: the claim entails a fixed recursion-depth cap `D`, and
binary bisection capped at depth `D` can return at most `2^D` pieces per
polygon; but no `D` bounds the splitter's output, whose piece count grows
with the polygon's extent. -/
theorem c5_counterexample :
    ¬ ∃ D : ℕ, ∀ r : Rect,
      (splitRun (.poly r.ring) (110574.307 ^ 2)).length ≤ 2 ^ D := by
  rintro ⟨D, hD⟩
  have h1 := famRect_split_length (2 ^ D) (Nat.one_le_two_pow)
  have h2 := hD (famRect (2 ^ D))
  omega

/-- C5 amended: the source's splitter has no recursion-depth cap and no
cap-piece diagnostics; it is nonetheless total, and its piece count is the
full grid size, which exceeds any bound: on `[0,n]°×[-0.5,0.5]°` with
threshold `110574.307²` m² it returns more than `n` pieces. -/
theorem c5_no_depth_cap_unbounded (n : ℕ) (hn : 1 ≤ n) :
    n < (splitRun (.poly (famRect n).ring) (110574.307 ^ 2)).length :=
  famRect_split_length n hn

theorem c5_no_depth_cap_unbounded_witness :
    1 ≤ 3 ∧ 3 < (splitRun (.poly (famRect 3).ring) (110574.307 ^ 2)).length :=
  ⟨by norm_num, c5_no_depth_cap_unbounded 3 (by norm_num)⟩

/-! ## Claim C1: threshold respect fails (grid cells sized at mid-latitude) -/

theorem latRect_cellLat :
    cellLatDeg (Rect.mk 0 30 1 90) ((70000 : ℝ) ^ 2) = 70000 / 111412.2775 := by
  rw [cellLatDeg]
  have hmid : (((Rect.mk 0 30 1 90 : Rect)).y1 + (Rect.mk 0 30 1 90 : Rect).y2) / 2 =
      (60 : ℝ) := by norm_num
  rw [hmid, meters_per_degree_sixty, Real.sqrt_sq (by norm_num)]

theorem latRect_cellLon :
    cellLonDeg (Rect.mk 0 30 1 90) ((70000 : ℝ) ^ 2) = 70000 / 55566.477 := by
  rw [cellLonDeg]
  have hmid : (((Rect.mk 0 30 1 90 : Rect)).y1 + (Rect.mk 0 30 1 90 : Rect).y2) / 2 =
      (60 : ℝ) := by norm_num
  rw [hmid, meters_per_degree_sixty, Real.sqrt_sq (by norm_num)]

theorem latRect_area :
    geodesic_area_m2 (Rect.mk 0 30 1 90).ring = EarthR ^ 2 * rad 1 * (1 - 1 / 2) := by
  rw [geodesic_area_rect (Rect.mk 0 30 1 90) (by norm_num) (by norm_num) (by norm_num)
    (by norm_num)]
  norm_num [rad_ninety, rad_thirty, Real.sin_pi_div_two, Real.sin_pi_div_six]

theorem latRect_area_gt :
    (70000 : ℝ) ^ 2 < geodesic_area_m2 (Rect.mk 0 30 1 90).ring := by
  rw [latRect_area]
  have h1 := rad_lb 1 (by norm_num)
  rw [EarthR]
  nlinarith

theorem latRect_piece00 :
    gridPiece (Rect.mk 0 30 1 90) ((70000 : ℝ) ^ 2) 0 0 =
      Rect.mk 0 30 1 (30 + 70000 / 111412.2775) := by
  have hclge : (1 : ℝ) ≤ cellLonDeg (Rect.mk 0 30 1 90) ((70000 : ℝ) ^ 2) := by
    rw [latRect_cellLon, le_div_iff₀ (by norm_num)]
    norm_num
  have hcaub : cellLatDeg (Rect.mk 0 30 1 90) ((70000 : ℝ) ^ 2) ≤ 0.628298 := by
    rw [latRect_cellLat, div_le_iff₀ (by norm_num)]
    norm_num
  simp only [gridPiece, Rect.mk.injEq, Nat.cast_zero, zero_mul, add_zero, zero_add]
  refine ⟨trivial, trivial, min_eq_left hclge, ?_⟩
  rw [latRect_cellLat]
  rw [latRect_cellLat] at hcaub
  exact min_eq_right (by linarith)

theorem latRect_piece_area_bound :
    (70000 : ℝ) ^ 2 * (1 + 0.05) <
      geodesic_area_m2 (Rect.mk 0 30 1 (30 + 70000 / 111412.2775)).ring := by
  have hq1 : (0.628295 : ℝ) ≤ 70000 / 111412.2775 := by
    rw [le_div_iff₀ (by norm_num)]
    norm_num
  have hq2 : (70000 : ℝ) / 111412.2775 ≤ 0.628298 := by
    rw [div_le_iff₀ (by norm_num)]
    norm_num
  have harea := geodesic_area_rect (Rect.mk 0 30 1 (30 + 70000 / 111412.2775))
    (by norm_num) (by norm_num) (by simp; linarith) (by simp; linarith)
  rw [harea]
  have hradsum : rad (30 + 70000 / 111412.2775) =
      Real.pi / 6 + rad (70000 / 111412.2775) := by
    rw [← rad_thirty]
    rw [rad, rad, rad]
    ring
  have hsin : Real.sin (rad (30 + 70000 / 111412.2775)) =
      Real.cos (rad (70000 / 111412.2775)) / 2 +
        Real.sqrt 3 / 2 * Real.sin (rad (70000 / 111412.2775)) := by
    rw [hradsum, Real.sin_add, Real.sin_pi_div_six, Real.cos_pi_div_six]
    ring
  have hd1 : (0.0109657 : ℝ) ≤ rad (70000 / 111412.2775) := by
    have := rad_lb (70000 / 111412.2775) (by linarith)
    nlinarith
  have hd2 : rad (70000 / 111412.2775) ≤ 0.0109659 := by
    have := rad_ub (70000 / 111412.2775) (by linarith)
    nlinarith
  have hsinq : (0.0109653 : ℝ) ≤ Real.sin (rad (70000 / 111412.2775)) := by
    have hc := Real.sin_gt_sub_cube (by linarith : (0:ℝ) < rad (70000 / 111412.2775))
      (by linarith)
    have hcube : rad (70000 / 111412.2775) ^ 3 ≤ (0.0109659 : ℝ) ^ 3 :=
      pow_le_pow_left₀ (by linarith) hd2 3
    nlinarith
  have hcosq : (1 : ℝ) - 0.0000602 ≤ Real.cos (rad (70000 / 111412.2775)) := by
    have h := Real.one_sub_sq_div_two_le_cos (x := rad (70000 / 111412.2775))
    nlinarith
  have hsqrt3 : (1.7320508 : ℝ) ≤ Real.sqrt 3 := by
    nlinarith [Real.sq_sqrt (show (0:ℝ) ≤ 3 by norm_num), Real.sqrt_nonneg 3]
  have hsindiff : (0.0094661 : ℝ) ≤
      Real.sin (rad (30 + 70000 / 111412.2775)) - 1 / 2 := by
    rw [hsin]
    have hmul : (1.7320508 : ℝ) * 0.0109653 ≤
        Real.sqrt 3 * Real.sin (rad (70000 / 111412.2775)) :=
      mul_le_mul hsqrt3 hsinq (by norm_num) (Real.sqrt_nonneg 3)
    nlinarith
  have hrad1 : (0.0174532 : ℝ) ≤ rad 1 := by
    have := rad_lb 1 (by norm_num)
    nlinarith
  have hmul2 : (0.0174532 : ℝ) * 0.0094661 ≤
      rad 1 * (Real.sin (rad (30 + 70000 / 111412.2775)) - 1 / 2) :=
    mul_le_mul hrad1 hsindiff (by norm_num) (by linarith [rad_nonneg (by norm_num : (0:ℝ) ≤ 1)])
  have hy1s : Real.sin (rad ((Rect.mk 0 30 1 (30 + 70000 / 111412.2775) : Rect)).y1) =
      1 / 2 := by
    show Real.sin (rad 30) = 1 / 2
    rw [rad_thirty, Real.sin_pi_div_six]
  simp only [hy1s]
  rw [EarthR]
  norm_num
  nlinarith [hmul2]

theorem gridPiece_mem_splitRun (r : Rect) (m : ℝ) (hx : r.x1 < r.x2) (hy : r.y1 < r.y2)
    (hy1 : -90 ≤ r.y1) (hy2 : r.y2 ≤ 90) (hm : 0 < m)
    (harea : m < geodesic_area_m2 r.ring) (i j : ℕ)
    (hi : i < gridCols r m) (hj : j < gridRows r m) :
    (gridPiece r m i j).ring ∈ splitRun (.poly r.ring) m := by
  rw [splitRun_rect_grid r m hx hy hy1 hy2 hm harea, gridList]
  exact List.mem_flatMap.2 ⟨i, List.mem_range.2 hi, List.mem_map.2 ⟨j, List.mem_range.2 hj, rfl⟩⟩

/-- C1 counterexample: with the spec's default 5% tolerance, splitting the
polygon `[0,1]°×[30,90]°` at `maxArea = 70000² m²` yields a piece whose
geodesic area exceeds `maxArea · 1.05`: the grid cell is sized with
`meters_per_degree` of the mid-latitude 60°, but at the polygon's southern
edge (latitude 30°) a cell of those angular dimensions covers far more
ground area.  The code also has no recursion-depth cap, so the claim's
exception clause does not apply to any piece. -/
theorem c1_counterexample :
    ∃ piece ∈ splitRun (.poly (Rect.mk 0 30 1 90).ring) ((70000 : ℝ) ^ 2),
      (70000 : ℝ) ^ 2 * (1 + 0.05) < geodesic_area_m2 piece := by
  have hcl0 : 0 < cellLonDeg (Rect.mk 0 30 1 90) ((70000 : ℝ) ^ 2) := by
    rw [latRect_cellLon]
    norm_num
  have hca0 : 0 < cellLatDeg (Rect.mk 0 30 1 90) ((70000 : ℝ) ^ 2) := by
    rw [latRect_cellLat]
    norm_num
  refine ⟨(gridPiece (Rect.mk 0 30 1 90) ((70000 : ℝ) ^ 2) 0 0).ring, ?_, ?_⟩
  · exact gridPiece_mem_splitRun (Rect.mk 0 30 1 90) ((70000 : ℝ) ^ 2) (by norm_num)
      (by norm_num) (by norm_num) (by norm_num) (by norm_num) latRect_area_gt 0 0
      (gridCols_pos (Rect.mk 0 30 1 90) ((70000 : ℝ) ^ 2) (by norm_num) hcl0)
      (gridRows_pos (Rect.mk 0 30 1 90) ((70000 : ℝ) ^ 2) (by norm_num) hca0)
  · rw [latRect_piece00]
    exact latRect_piece_area_bound

/-- C1 amended: when a polygon is split (its area exceeds the threshold),
every returned piece is confined to a single grid cell: a rectangle of at
most `cellLonDeg × cellLatDeg` degrees, the cell size obtained from
`sqrt(maxArea)` meters at the mid-latitude of the bounding box.  The
geodesic area of such a piece can still exceed `maxArea · (1 + 5%)` at
latitudes away from the mid-latitude (see the counterexample), and no
recursion-depth-cap accounting exists. -/
theorem c1_pieces_confined (r : Rect) (m : ℝ) (hx : r.x1 < r.x2) (hy : r.y1 < r.y2)
    (hy1 : -90 ≤ r.y1) (hy2 : r.y2 ≤ 90) (hm : 0 < m)
    (harea : m < geodesic_area_m2 r.ring) :
    ∀ piece ∈ splitRun (.poly r.ring) m, ∃ pr : Rect,
      ringRect piece = some pr ∧ pr.x2 - pr.x1 ≤ cellLonDeg r m ∧
        pr.y2 - pr.y1 ≤ cellLatDeg r m := by
  intro piece hmem
  rw [splitRun_rect_grid r m hx hy hy1 hy2 hm harea, gridList] at hmem
  obtain ⟨i, hi, hmem2⟩ := List.mem_flatMap.1 hmem
  obtain ⟨j, hj, rfl⟩ := List.mem_map.1 hmem2
  refine ⟨gridPiece r m i j, ringRect_rect _, ?_, ?_⟩
  · have h := min_le_right r.x2 (r.x1 + i * cellLonDeg r m + cellLonDeg r m)
    simp only [gridPiece]
    linarith
  · have h := min_le_right r.y2 (r.y1 + j * cellLatDeg r m + cellLatDeg r m)
    simp only [gridPiece]
    linarith

theorem c1_pieces_confined_witness :
    ∃ pr : Rect,
      ringRect (gridPiece (Rect.mk 0 30 1 90) ((70000 : ℝ) ^ 2) 0 0).ring = some pr ∧
        pr.x2 - pr.x1 ≤ cellLonDeg (Rect.mk 0 30 1 90) ((70000 : ℝ) ^ 2) ∧
        pr.y2 - pr.y1 ≤ cellLatDeg (Rect.mk 0 30 1 90) ((70000 : ℝ) ^ 2) := by
  have hcl0 : 0 < cellLonDeg (Rect.mk 0 30 1 90) ((70000 : ℝ) ^ 2) := by
    rw [latRect_cellLon]
    norm_num
  have hca0 : 0 < cellLatDeg (Rect.mk 0 30 1 90) ((70000 : ℝ) ^ 2) := by
    rw [latRect_cellLat]
    norm_num
  exact c1_pieces_confined (Rect.mk 0 30 1 90) ((70000 : ℝ) ^ 2) (by norm_num) (by norm_num)
    (by norm_num) (by norm_num) (by norm_num) latRect_area_gt
    (gridPiece (Rect.mk 0 30 1 90) ((70000 : ℝ) ^ 2) 0 0).ring
    (gridPiece_mem_splitRun (Rect.mk 0 30 1 90) ((70000 : ℝ) ^ 2) (by norm_num) (by norm_num)
      (by norm_num) (by norm_num) (by norm_num) latRect_area_gt 0 0
      (gridCols_pos (Rect.mk 0 30 1 90) ((70000 : ℝ) ^ 2) (by norm_num) hcl0)
      (gridRows_pos (Rect.mk 0 30 1 90) ((70000 : ℝ) ^ 2) (by norm_num) hca0))

/-! ## Claim C3: grid splitting, not midpoint bisection -/

theorem B3_cellLat : cellLatDeg (Rect.mk 0 (-0.5) 1 0.5) ((110574.307 : ℝ) ^ 2) = 1 := by
  rw [cellLatDeg]
  have hmid : (((Rect.mk 0 (-0.5) 1 0.5 : Rect)).y1 +
      (Rect.mk 0 (-0.5) 1 0.5 : Rect).y2) / 2 = (0 : ℝ) := by norm_num
  rw [hmid, meters_per_degree_zero, Real.sqrt_sq (by norm_num)]
  norm_num

theorem B3_cellLon : cellLonDeg (Rect.mk 0 (-0.5) 1 0.5) ((110574.307 : ℝ) ^ 2) =
    110574.307 / 111132.954 := by
  rw [cellLonDeg]
  have hmid : (((Rect.mk 0 (-0.5) 1 0.5 : Rect)).y1 +
      (Rect.mk 0 (-0.5) 1 0.5 : Rect).y2) / 2 = (0 : ℝ) := by norm_num
  rw [hmid, meters_per_degree_zero, Real.sqrt_sq (by norm_num)]

theorem B3_area_gt :
    (110574.307 : ℝ) ^ 2 < geodesic_area_m2 (Rect.mk 0 (-0.5) 1 0.5).ring := by
  have h := band_area_eq 0 1 0.5 (by norm_num) (by norm_num) (by norm_num)
  rw [h]
  have := bandK5_bounds.1
  nlinarith

theorem B3_left_le :
    geodesic_area_m2 (Rect.mk 0 (-0.5) ((0 + 1) / 2) 0.5).ring ≤ (110574.307 : ℝ) ^ 2 := by
  have h := band_area_eq 0 ((0 + 1) / 2) 0.5 (by norm_num) (by norm_num) (by norm_num)
  rw [h]
  have h1 := bandK5_bounds.1
  have h2 := bandK5_bounds.2
  nlinarith

theorem B3_right_le :
    geodesic_area_m2 (Rect.mk ((0 + 1) / 2) (-0.5) 1 0.5).ring ≤ (110574.307 : ℝ) ^ 2 := by
  have h := band_area_eq ((0 + 1) / 2) 1 0.5 (by norm_num) (by norm_num) (by norm_num)
  rw [h]
  have h1 := bandK5_bounds.1
  have h2 := bandK5_bounds.2
  nlinarith

theorem splitRun_B3 :
    splitRun (.poly (Rect.mk 0 (-0.5) 1 0.5).ring) ((110574.307 : ℝ) ^ 2) =
      [(Rect.mk 0 (-0.5) (110574.307 / 111132.954) 0.5).ring,
       (Rect.mk (110574.307 / 111132.954) (-0.5) 1 0.5).ring] := by
  rw [splitRun_rect_grid (Rect.mk 0 (-0.5) 1 0.5) ((110574.307 : ℝ) ^ 2) (by norm_num)
    (by norm_num) (by norm_num) (by norm_num) (by norm_num) B3_area_gt]
  have hcols : gridCols (Rect.mk 0 (-0.5) 1 0.5) ((110574.307 : ℝ) ^ 2) = 2 := by
    rw [gridCols, B3_cellLon]
    have hdx : ((Rect.mk 0 (-0.5) 1 0.5 : Rect).x2 -
        (Rect.mk 0 (-0.5) 1 0.5 : Rect).x1) = (1 : ℝ) := by norm_num
    rw [hdx, Nat.ceil_eq_iff (by norm_num)]
    norm_num
  have hrows : gridRows (Rect.mk 0 (-0.5) 1 0.5) ((110574.307 : ℝ) ^ 2) = 1 := by
    rw [gridRows, B3_cellLat]
    have hdy : ((Rect.mk 0 (-0.5) 1 0.5 : Rect).y2 -
        (Rect.mk 0 (-0.5) 1 0.5 : Rect).y1) / 1 = (1 : ℝ) := by norm_num
    rw [hdy, Nat.ceil_one]
  have hcl1 : (110574.307 : ℝ) / 111132.954 ≤ 1 := by
    rw [div_le_one (by norm_num)]
    norm_num
  have h2cl : (1 : ℝ) ≤ 110574.307 / 111132.954 + 110574.307 / 111132.954 := by
    rw [div_add_div_same, le_div_iff₀ (by norm_num)]
    norm_num
  rw [gridList, hcols, hrows]
  simp only [List.range_succ, List.range_zero, List.nil_append, List.cons_append,
    List.flatMap_cons, List.flatMap_nil, List.map_cons, List.map_nil, List.append_nil,
    gridPiece, B3_cellLat, B3_cellLon]
  norm_num [min_eq_right hcl1, min_eq_left h2cl]

theorem bisect_B3 :
    split_bisect_spec 16 (Rect.mk 0 (-0.5) 1 0.5) ((110574.307 : ℝ) ^ 2) =
      [Rect.mk 0 (-0.5) ((0 + 1) / 2) 0.5, Rect.mk ((0 + 1) / 2) (-0.5) 1 0.5] := by
  have hbig : ¬ (geodesic_area_m2 (Rect.mk 0 (-0.5) 1 0.5).ring ≤ (110574.307 : ℝ) ^ 2) :=
    not_le.2 B3_area_gt
  have hclipL : clipRect (Rect.mk 0 (-0.5) 1 0.5)
      (Rect.mk 0 (-0.5) ((0 + 1) / 2) 0.5) =
      some (Rect.mk 0 (-0.5) ((0 + 1) / 2) 0.5) := by
    have h := clipRect_pos (Rect.mk 0 (-0.5) 1 0.5) (Rect.mk 0 (-0.5) ((0 + 1) / 2) 0.5)
      (by norm_num) (by norm_num)
    rw [h]
    norm_num
  have hclipR : clipRect (Rect.mk 0 (-0.5) 1 0.5)
      (Rect.mk ((0 + 1) / 2) (-0.5) 1 0.5) =
      some (Rect.mk ((0 + 1) / 2) (-0.5) 1 0.5) := by
    have h := clipRect_pos (Rect.mk 0 (-0.5) 1 0.5) (Rect.mk ((0 + 1) / 2) (-0.5) 1 0.5)
      (by norm_num) (by norm_num)
    rw [h]
    norm_num
  have hL : split_bisect_spec 15 (Rect.mk 0 (-0.5) ((0 + 1) / 2) 0.5)
      ((110574.307 : ℝ) ^ 2) = [Rect.mk 0 (-0.5) ((0 + 1) / 2) 0.5] := by
    rw [split_bisect_spec, if_pos B3_left_le]
  have hR : split_bisect_spec 15 (Rect.mk ((0 + 1) / 2) (-0.5) 1 0.5)
      ((110574.307 : ℝ) ^ 2) = [Rect.mk ((0 + 1) / 2) (-0.5) 1 0.5] := by
    rw [split_bisect_spec, if_pos B3_right_le]
  rw [split_bisect_spec, if_neg hbig]
  have hdim : ((Rect.mk 0 (-0.5) 1 0.5 : Rect).y2 - (Rect.mk 0 (-0.5) 1 0.5 : Rect).y1
      ≤ (Rect.mk 0 (-0.5) 1 0.5 : Rect).x2 - (Rect.mk 0 (-0.5) 1 0.5 : Rect).x1) := by
    norm_num
  rw [if_pos hdim]
  simp only [List.flatMap_cons, List.flatMap_nil, List.append_nil, hclipL, hclipR, hL, hR]
  rfl

/-- C3 counterexample: on the square `[0,1]°×[-0.5,0.5]°` with
`maxArea = 110574.307² m²` the source's splitter does not cut at the
bounding-box midpoint along the longer axis: it returns grid pieces whose
cut line sits at `110574.307/111132.954 ≈ 0.995°`, not at `0.5°`, so its
output differs from the spec's midpoint-bisection procedure (with the
spec's example depth cap 16). -/
theorem c3_counterexample :
    splitRun (.poly (Rect.mk 0 (-0.5) 1 0.5).ring) ((110574.307 : ℝ) ^ 2) ≠
      (split_bisect_spec 16 (Rect.mk 0 (-0.5) 1 0.5) ((110574.307 : ℝ) ^ 2)).map
        Rect.ring := by
  rw [splitRun_B3, bisect_B3]
  intro hcontra
  norm_num [Rect.ring] at hcontra

/-- C3 amended: when a polygon exceeds the threshold, the splitter overlays
a grid of cells of side `sqrt(maxArea)` meters — converted to degrees at
the bounding box's mid-latitude — over the bounding box, and every returned
piece is the intersection of the polygon with the cell at some column `i`
and row `j`; there is no midpoint bisection, no longer-axis selection, and
no recursion on pieces. -/
theorem c3_pieces_are_grid_cells (r : Rect) (m : ℝ) (hx : r.x1 < r.x2)
    (hy : r.y1 < r.y2) (hy1 : -90 ≤ r.y1) (hy2 : r.y2 ≤ 90) (hm : 0 < m)
    (harea : m < geodesic_area_m2 r.ring) :
    ∀ piece ∈ splitRun (.poly r.ring) m, ∃ i j : ℕ,
      i < gridCols r m ∧ j < gridRows r m ∧ piece = (gridPiece r m i j).ring := by
  intro piece hmem
  rw [splitRun_rect_grid r m hx hy hy1 hy2 hm harea, gridList] at hmem
  obtain ⟨i, hi, hmem2⟩ := List.mem_flatMap.1 hmem
  obtain ⟨j, hj, rfl⟩ := List.mem_map.1 hmem2
  exact ⟨i, j, List.mem_range.1 hi, List.mem_range.1 hj, rfl⟩

theorem c3_pieces_are_grid_cells_witness :
    ∃ i j : ℕ, i < gridCols (Rect.mk 0 (-0.5) 1 0.5) ((110574.307 : ℝ) ^ 2) ∧
      j < gridRows (Rect.mk 0 (-0.5) 1 0.5) ((110574.307 : ℝ) ^ 2) ∧
      (Rect.mk 0 (-0.5) (110574.307 / 111132.954) 0.5).ring =
        (gridPiece (Rect.mk 0 (-0.5) 1 0.5) ((110574.307 : ℝ) ^ 2) i j).ring := by
  refine c3_pieces_are_grid_cells (Rect.mk 0 (-0.5) 1 0.5) ((110574.307 : ℝ) ^ 2)
    (by norm_num) (by norm_num) (by norm_num) (by norm_num) (by norm_num) B3_area_gt
    (Rect.mk 0 (-0.5) (110574.307 / 111132.954) 0.5).ring ?_
  rw [splitRun_B3]
  simp

/-! ## Claim C6: kernel errors drop the polygon from the output -/

theorem split_fail_on_big (r : Rect) (hx : r.x1 < r.x2) (hy : r.y1 < r.y2)
    (m : ℝ) (harea : ¬ (geodesic_area_m2 r.ring ≤ m)) :
    split_by_area_no_pyproj failClip (.poly r.ring) m = .error () := by
  have hb := ringBounds_rect r hx.le hy.le
  simp only [split_by_area_no_pyproj, split_poly, hb, if_neg harea]
  simp only [split_xloop, if_pos hx, split_yloop, if_pos hy, failClip]

/-- Step B on `[P, Q]` under an always-failing kernel, where `P` is split
(and the kernel error escapes its worker) and `Q` is not: `P` is dropped,
only `Q`'s resampled ring is output. -/
theorem stepB_fail_drops (simplify : SimplifyFn) (P Q : Rect) (m : ℝ) (n pz : ℕ)
    (hx : P.x1 < P.x2) (hy : P.y1 < P.y2) (harea : ¬ (geodesic_area_m2 P.ring ≤ m))
    (hQ : geodesic_area_m2 Q.ring ≤ m) :
    stepB_split failClip simplify [0, 1] [P.ring, Q.ring] m n pz =
      [resample_polygon_geojson simplify Q.ring n] := by
  have hPerr := split_fail_on_big P hx hy m harea
  have hQok := split_by_area_poly_le failClip Q.ring m hQ
  simp [stepB_split, process_polygon_worker, hPerr, hQok]

/-- C6 counterexample: the kernel's intersection raises while splitting the
first polygon; the claim says that polygon is then returned unsplit in the
output, but the run instead drops it: the output holds only the second
polygon's ring, and the first polygon's ring is absent. -/
theorem c6_counterexample :
    stepB_split failClip id [0, 1]
        [(Rect.mk 0 (-0.5) 1 0.5).ring, (Rect.mk 0 0 0 1).ring]
        ((110574.307 : ℝ) ^ 2) 200 10 = [(Rect.mk 0 0 0 1).ring] ∧
      (Rect.mk 0 (-0.5) 1 0.5).ring ∉
        stepB_split failClip id [0, 1]
          [(Rect.mk 0 (-0.5) 1 0.5).ring, (Rect.mk 0 0 0 1).ring]
          ((110574.307 : ℝ) ^ 2) 200 10 := by
  have heval := stepB_fail_drops id (Rect.mk 0 (-0.5) 1 0.5) (Rect.mk 0 0 0 1)
    ((110574.307 : ℝ) ^ 2) 200 10 (by norm_num) (by norm_num) (not_le.2 B3_area_gt)
    (by rw [geodesic_area_degenerate]; norm_num)
  have hres : resample_polygon_geojson id (Rect.mk 0 0 0 1).ring 200 =
      (Rect.mk 0 0 0 1).ring := by
    simp [resample_polygon_geojson, Rect.ring]
  rw [heval, hres]
  refine ⟨rfl, ?_⟩
  intro hmem
  norm_num [Rect.ring] at hmem

/-- C6 amended: the splitter itself has no error handling — a kernel error
escapes `split_by_area_no_pyproj`; `process_polygon_worker` catches it and
records it under the `error` key, and `main_process` then logs the worker
error and drops that polygon from the output (it is neither returned
unsplit nor does the whole run fail: the remaining polygons are processed
normally). -/
theorem c6_worker_error_drops (simplify : SimplifyFn) (P Q : Rect) (m : ℝ) (n pz : ℕ)
    (hx : P.x1 < P.x2) (hy : P.y1 < P.y2) (harea : ¬ (geodesic_area_m2 P.ring ≤ m))
    (hQ : geodesic_area_m2 Q.ring ≤ m) :
    (process_polygon_worker failClip simplify (.poly P.ring) m n pz).error = some () ∧
      stepB_split failClip simplify [0, 1] [P.ring, Q.ring] m n pz =
        [resample_polygon_geojson simplify Q.ring n] := by
  constructor
  · simp [process_polygon_worker, split_fail_on_big P hx hy m harea]
  · exact stepB_fail_drops simplify P Q m n pz hx hy harea hQ

theorem c6_worker_error_drops_witness :
    (process_polygon_worker failClip id (.poly (Rect.mk 0 (-0.5) 1 0.5).ring)
        ((110574.307 : ℝ) ^ 2) 200 10).error = some () ∧
      stepB_split failClip id [0, 1]
          [(Rect.mk 0 (-0.5) 1 0.5).ring, (Rect.mk 0 0 0 2).ring]
          ((110574.307 : ℝ) ^ 2) 200 10 =
        [resample_polygon_geojson id (Rect.mk 0 0 0 2).ring 200] :=
  c6_worker_error_drops id (Rect.mk 0 (-0.5) 1 0.5) (Rect.mk 0 0 0 2)
    ((110574.307 : ℝ) ^ 2) 200 10 (by norm_num) (by norm_num) (not_le.2 B3_area_gt)
    (by rw [geodesic_area_degenerate]; norm_num)

/-! ## Claim C8: output order depends on worker completion order -/

theorem stepB_order_01 :
    stepB_split shapelyClip id [0, 1]
        [(Rect.mk 0 0 0 1).ring, (Rect.mk 0 0 0 2).ring] 5 200 10 =
      [(Rect.mk 0 0 0 1).ring, (Rect.mk 0 0 0 2).ring] := by
  have h1 := split_by_area_poly_le shapelyClip (Rect.mk 0 0 0 1).ring 5
    (by rw [geodesic_area_degenerate]; norm_num)
  have h2 := split_by_area_poly_le shapelyClip (Rect.mk 0 0 0 2).ring 5
    (by rw [geodesic_area_degenerate]; norm_num)
  have hl1 : (Rect.mk 0 0 0 1).ring.length ≤ 200 := by simp [Rect.ring]
  have hl2 : (Rect.mk 0 0 0 2).ring.length ≤ 200 := by simp [Rect.ring]
  generalize hr1 : (Rect.mk 0 0 0 1).ring = r1 at *
  generalize hr2 : (Rect.mk 0 0 0 2).ring = r2 at *
  simp [stepB_split, process_polygon_worker, h1, h2, resample_polygon_geojson, hl1, hl2]

theorem stepB_order_10 :
    stepB_split shapelyClip id [1, 0]
        [(Rect.mk 0 0 0 1).ring, (Rect.mk 0 0 0 2).ring] 5 200 10 =
      [(Rect.mk 0 0 0 2).ring, (Rect.mk 0 0 0 1).ring] := by
  have h1 := split_by_area_poly_le shapelyClip (Rect.mk 0 0 0 1).ring 5
    (by rw [geodesic_area_degenerate]; norm_num)
  have h2 := split_by_area_poly_le shapelyClip (Rect.mk 0 0 0 2).ring 5
    (by rw [geodesic_area_degenerate]; norm_num)
  have hl1 : (Rect.mk 0 0 0 1).ring.length ≤ 200 := by simp [Rect.ring]
  have hl2 : (Rect.mk 0 0 0 2).ring.length ≤ 200 := by simp [Rect.ring]
  generalize hr1 : (Rect.mk 0 0 0 1).ring = r1 at *
  generalize hr2 : (Rect.mk 0 0 0 2).ring = r2 at *
  simp [stepB_split, process_polygon_worker, h1, h2, resample_polygon_geojson, hl1, hl2]

/-- C8 counterexample: `main_process` consumes worker results in
`as_completed` (completion) order; two runs on identical input and
configuration that differ only in that scheduling-determined order produce
the same pieces in different orders, so the output is not identical. -/
theorem c8_counterexample :
    stepB_split shapelyClip id [0, 1]
        [(Rect.mk 0 0 0 1).ring, (Rect.mk 0 0 0 2).ring] 5 200 10 ≠
      stepB_split shapelyClip id [1, 0]
        [(Rect.mk 0 0 0 1).ring, (Rect.mk 0 0 0 2).ring] 5 200 10 := by
  rw [stepB_order_01, stepB_order_10]
  intro hcontra
  norm_num [Rect.ring] at hcontra

theorem stepB_foldl_flatMap (K : GeoKernel) (simplify : SimplifyFn) (m : ℝ) (n pz : ℕ) :
    ∀ (l acc : List PolyRing),
      (l.foldl (fun acc p =>
        let w := process_polygon_worker K simplify (.poly p) m n pz
        if w.error.isSome then acc else acc ++ w.features) acc) =
      acc ++ l.flatMap (fun p =>
        let w := process_polygon_worker K simplify (.poly p) m n pz
        if w.error.isSome then [] else w.features) := by
  intro l
  induction l with
  | nil =>
    intro acc
    simp
  | cons a t ih =>
    intro acc
    by_cases hc : (process_polygon_worker K simplify (.poly a) m n pz).error.isSome
    · simp only [List.foldl_cons, List.flatMap_cons]
      rw [ih]
      simp [hc]
    · simp only [List.foldl_cons, List.flatMap_cons]
      rw [ih]
      simp [hc]

/-- C8 amended: the set of output pieces is deterministic — any completion
order that is a permutation of the submission order yields a permutation of
the submission-order output — but the order of the pieces in the output
list follows the completion order, which scheduling does not fix. -/
theorem c8_output_perm (K : GeoKernel) (simplify : SimplifyFn) (order : List ℕ)
    (polys : List PolyRing) (m : ℝ) (n pz : ℕ)
    (hperm : List.Perm order (List.range polys.length)) :
    List.Perm (stepB_split K simplify order polys m n pz)
      (stepB_split K simplify (List.range polys.length) polys m n pz) := by
  rw [stepB_split, stepB_split, stepB_foldl_flatMap, stepB_foldl_flatMap]
  simp only [List.nil_append]
  exact (hperm.filterMap _).flatMap_right _

theorem c8_output_perm_witness :
    List.Perm
      (stepB_split shapelyClip id [1, 0]
        [(Rect.mk 0 0 0 1).ring, (Rect.mk 0 0 0 2).ring] 5 200 10)
      (stepB_split shapelyClip id
        (List.range ([(Rect.mk 0 0 0 1).ring, (Rect.mk 0 0 0 2).ring]).length)
        [(Rect.mk 0 0 0 1).ring, (Rect.mk 0 0 0 2).ring] 5 200 10) :=
  c8_output_perm shapelyClip id [1, 0]
    [(Rect.mk 0 0 0 1).ring, (Rect.mk 0 0 0 2).ring] 5 200 10 (by decide)

/-! ## Claim C7: the pipeline merges before splitting -/

/-- The shapely adjacency test modelled on rectangles: closed rectangles
touch or intersect exactly when their coordinate ranges overlap. -/
noncomputable def rectTouch (a b : PolyRing) : Bool :=
  match ringRect a, ringRect b with
  | some r, some s => decide (r.x1 ≤ s.x2 ∧ s.x1 ≤ r.x2 ∧ r.y1 ≤ s.y2 ∧ s.y1 ≤ r.y2)
  | _, _ => false

/-- `unary_union` modelled on rectangles sharing the same latitude range
and overlapping or touching in longitude — the only unions the concrete
scenarios evaluate; other inputs fall back to the first argument. -/
noncomputable def rectUnionRing (a b : PolyRing) : PolyRing :=
  match ringRect a, ringRect b with
  | some r, some s =>
    if r.y1 = s.y1 ∧ r.y2 = s.y2 ∧ r.x1 ≤ s.x2 ∧ s.x1 ≤ r.x2 then
      (Rect.mk (min r.x1 s.x1) r.y1 (max r.x2 s.x2) r.y2).ring
    else a
  | _, _ => a

/-- A merge kernel exact on the aligned rectangles the scenario evaluates;
`representative_point` is never reached (island merging stays disabled). -/
noncomputable def rectMK : MergeKernel :=
  MergeKernel.mk rectTouch rectUnionRing (fun p => p.headD (0, 0))

theorem rectTouch_eval (r s : Rect) (h : r.x1 ≤ s.x2 ∧ s.x1 ≤ r.x2 ∧ r.y1 ≤ s.y2 ∧ s.y1 ≤ r.y2) :
    rectTouch r.ring s.ring = true := by
  simp only [rectTouch, ringRect_rect]
  exact decide_eq_true h

theorem rectTouch_eval_false (r s : Rect)
    (h : ¬ (r.x1 ≤ s.x2 ∧ s.x1 ≤ r.x2 ∧ r.y1 ≤ s.y2 ∧ s.y1 ≤ r.y2)) :
    rectTouch r.ring s.ring = false := by
  simp only [rectTouch, ringRect_rect]
  exact decide_eq_false h

theorem rectUnion_eval (r s : Rect)
    (h : r.y1 = s.y1 ∧ r.y2 = s.y2 ∧ r.x1 ≤ s.x2 ∧ s.x1 ≤ r.x2) :
    rectUnionRing r.ring s.ring = (Rect.mk (min r.x1 s.x1) r.y1 (max r.x2 s.x2) r.y2).ring := by
  simp only [rectUnionRing, ringRect_rect]
  rw [if_pos h]

theorem areaB7 : geodesic_area_m2 (Rect.mk 0 (-0.35) 1 0.35).ring = 1 * bandK 0.35 := by
  have h := band_area_eq 0 1 0.35 (by norm_num) (by norm_num) (by norm_num)
  rw [h]
  norm_num

theorem areaS7 : geodesic_area_m2 (Rect.mk (-0.01) (-0.35) 0 0.35).ring =
    0.01 * bandK 0.35 := by
  have h := band_area_eq (-0.01) 0 0.35 (by norm_num) (by norm_num) (by norm_num)
  rw [h]
  norm_num

theorem areaU7 : geodesic_area_m2 (Rect.mk (-0.01) (-0.35) 1 0.35).ring =
    1.01 * bandK 0.35 := by
  have h := band_area_eq (-0.01) 1 0.35 (by norm_num) (by norm_num) (by norm_num)
  rw [h]
  norm_num

theorem hB7_notsmall :
    ¬ (geodesic_area_m2 (Rect.mk 0 (-0.35) 1 0.35).ring < 200 * 1000000) := by
  rw [areaB7]
  have h := bandK35_bounds.1
  push_neg
  nlinarith

theorem hS7_small :
    geodesic_area_m2 (Rect.mk (-0.01) (-0.35) 0 0.35).ring < 200 * 1000000 := by
  rw [areaS7]
  have h := bandK35_bounds.2
  nlinarith

theorem hU7_notsmall :
    ¬ (geodesic_area_m2 (Rect.mk (-0.01) (-0.35) 1 0.35).ring < 200 * 1000000) := by
  rw [areaU7]
  have h := bandK35_bounds.1
  push_neg
  nlinarith

theorem merge_pass_code (nn : ℝ) :
    merge_pass rectMK
      [(Rect.mk 0 (-0.35) 1 0.35).ring, (Rect.mk (-0.01) (-0.35) 0 0.35).ring]
      (200 * 1000000) false nn = some [(Rect.mk (-0.01) (-0.35) 1 0.35).ring] := by
  have hB := decide_eq_false hB7_notsmall
  have hS := decide_eq_true hS7_small
  have htouch : rectMK.touchesOrIntersects (Rect.mk (-0.01) (-0.35) 0 0.35).ring
      (Rect.mk 0 (-0.35) 1 0.35).ring = true :=
    rectTouch_eval (Rect.mk (-0.01) (-0.35) 0 0.35) (Rect.mk 0 (-0.35) 1 0.35) (by norm_num)
  have hunion : rectMK.union (Rect.mk (-0.01) (-0.35) 0 0.35).ring
      (Rect.mk 0 (-0.35) 1 0.35).ring = (Rect.mk (-0.01) (-0.35) 1 0.35).ring := by
    have h := rectUnion_eval (Rect.mk (-0.01) (-0.35) 0 0.35) (Rect.mk 0 (-0.35) 1 0.35)
      (by norm_num)
    rw [show rectMK.union = rectUnionRing from rfl, h]
    norm_num
  generalize hrB : (Rect.mk 0 (-0.35) 1 0.35).ring = rB at *
  generalize hrS : (Rect.mk (-0.01) (-0.35) 0 0.35).ring = rS at *
  generalize hrU : (Rect.mk (-0.01) (-0.35) 1 0.35).ring = rU at *
  rw [merge_pass]
  simp only [List.enum, List.enumFrom, List.map_cons, List.map_nil, List.filter_cons,
    List.filter_nil, hB, hS]
  simp only [Bool.false_eq_true, if_false, if_true, List.isEmpty, List.mergeSort]
  simp only [tryMergeSmalls, Nat.reduceAdd, List.getD, List.getElem?_cons_succ,
    List.getElem?_cons_zero, Option.getD_some, List.enum, List.enumFrom, List.filter_cons,
    List.filter_nil, htouch]
  simp only [List.get?_cons_succ, List.get?_cons_zero, Option.getD_some, htouch,
    Nat.reduceBNe, bne_self_eq_false, Bool.true_and, Bool.false_and, Bool.and_true,
    if_true, if_false, Bool.false_eq_true, bestNeighbor, List.foldl_cons, List.foldl_nil,
    hunion, mergeReplace]
  simp only [show (1 ⊓ 0 : ℕ) = 0 from rfl, show (1 ⊔ 0 : ℕ) = 1 from rfl,
    List.set_cons_zero, List.eraseIdx_cons_succ, List.eraseIdx_cons_zero]

theorem merge_pass_code2 (nn : ℝ) :
    merge_pass rectMK [(Rect.mk (-0.01) (-0.35) 1 0.35).ring]
      (200 * 1000000) false nn = none := by
  have hU := decide_eq_false hU7_notsmall
  generalize hrU : (Rect.mk (-0.01) (-0.35) 1 0.35).ring = rU at *
  rw [merge_pass]
  simp only [List.enum, List.enumFrom, List.map_cons, List.map_nil, List.filter_cons,
    List.filter_nil, hU]
  simp only [Bool.false_eq_true, if_false, List.isEmpty_nil, if_true]

theorem mergeLoop_succ_some (MK : MergeKernel) (m : ℝ) (flag : Bool) (nn : ℝ)
    (fuel : ℕ) (polys polys2 : List PolyRing)
    (h : merge_pass MK polys m flag nn = some polys2) :
    mergeLoop MK m flag nn (fuel + 1) polys = mergeLoop MK m flag nn fuel polys2 := by
  simp only [mergeLoop, h]

theorem mergeLoop_succ_none (MK : MergeKernel) (m : ℝ) (flag : Bool) (nn : ℝ)
    (fuel : ℕ) (polys : List PolyRing)
    (h : merge_pass MK polys m flag nn = none) :
    mergeLoop MK m flag nn (fuel + 1) polys = polys := by
  simp only [mergeLoop, h]

theorem merge_code_eval (t nn : ℝ) :
    merge_small_polygons rectMK
      [(Rect.mk 0 (-0.35) 1 0.35).ring, (Rect.mk (-0.01) (-0.35) 0 0.35).ring]
      (200 * 1000000) t false nn = [(Rect.mk (-0.01) (-0.35) 1 0.35).ring] := by
  rw [merge_small_polygons]
  rw [show (2000 : ℕ) = 1999 + 1 by norm_num]
  rw [mergeLoop_succ_some _ _ _ _ _ _ _ (merge_pass_code nn)]
  rw [show (1999 : ℕ) = 1998 + 1 by norm_num]
  rw [mergeLoop_succ_none _ _ _ _ _ _ (merge_pass_code2 nn)]

theorem band7_cellLon (a b : ℝ) :
    cellLonDeg (Rect.mk a (-0.35) b 0.35) ((6400 : ℝ) * 1000000) =
    80000 / 111132.954 := by
  rw [cellLonDeg]
  have hmid : (((Rect.mk a (-0.35) b 0.35 : Rect)).y1 +
      (Rect.mk a (-0.35) b 0.35 : Rect).y2) / 2 = (0 : ℝ) := by norm_num
  rw [hmid, meters_per_degree_zero]
  rw [show (6400 : ℝ) * 1000000 = 80000 ^ 2 by norm_num, Real.sqrt_sq (by norm_num)]

theorem band7_cellLat (a b : ℝ) :
    cellLatDeg (Rect.mk a (-0.35) b 0.35) ((6400 : ℝ) * 1000000) =
    80000 / 110574.307 := by
  rw [cellLatDeg]
  have hmid : (((Rect.mk a (-0.35) b 0.35 : Rect)).y1 +
      (Rect.mk a (-0.35) b 0.35 : Rect).y2) / 2 = (0 : ℝ) := by norm_num
  rw [hmid, meters_per_degree_zero]
  rw [show (6400 : ℝ) * 1000000 = 80000 ^ 2 by norm_num, Real.sqrt_sq (by norm_num)]

theorem hU7_area_gt :
    (6400 : ℝ) * 1000000 < geodesic_area_m2 (Rect.mk (-0.01) (-0.35) 1 0.35).ring := by
  rw [areaU7]
  have h := bandK35_bounds.1
  nlinarith

theorem hB7_area_gt :
    (6400 : ℝ) * 1000000 < geodesic_area_m2 (Rect.mk 0 (-0.35) 1 0.35).ring := by
  rw [areaB7]
  have h := bandK35_bounds.1
  nlinarith

theorem hS7_area_le :
    geodesic_area_m2 (Rect.mk (-0.01) (-0.35) 0 0.35).ring ≤ (6400 : ℝ) * 1000000 := by
  rw [areaS7]
  have h := bandK35_bounds.2
  nlinarith

theorem gridList_two_one (r : Rect) (m : ℝ) (hcols : gridCols r m = 2)
    (hrows : gridRows r m = 1)
    (h1 : r.x1 + cellLonDeg r m ≤ r.x2)
    (h2 : r.x2 ≤ r.x1 + cellLonDeg r m + cellLonDeg r m)
    (h3 : r.y2 ≤ r.y1 + cellLatDeg r m) :
    gridList r m = [(Rect.mk r.x1 r.y1 (r.x1 + cellLonDeg r m) r.y2).ring,
      (Rect.mk (r.x1 + cellLonDeg r m) r.y1 r.x2 r.y2).ring] := by
  rw [gridList, hcols, hrows]
  simp only [List.range_succ, List.range_zero, List.nil_append, List.cons_append,
    List.flatMap_cons, List.flatMap_nil, List.map_cons, List.map_nil, List.append_nil,
    gridPiece]
  norm_num [min_eq_right h1, min_eq_left h2, min_eq_left h3]

theorem split_by_area_rect_grid (r : Rect) (m : ℝ) (hx : r.x1 < r.x2) (hy : r.y1 < r.y2)
    (hy1 : -90 ≤ r.y1) (hy2 : r.y2 ≤ 90) (hm : 0 < m)
    (harea : m < geodesic_area_m2 r.ring) :
    split_by_area_no_pyproj shapelyClip (.poly r.ring) m = .ok (gridList r m) := by
  simp [split_by_area_no_pyproj, split_poly_rect_grid r m hx hy hy1 hy2 hm harea]

theorem split_ok_U7 :
    split_by_area_no_pyproj shapelyClip (.poly (Rect.mk (-0.01) (-0.35) 1 0.35).ring)
      ((6400 : ℝ) * 1000000) =
      .ok [(Rect.mk (-0.01) (-0.35) (-0.01 + 80000 / 111132.954) 0.35).ring,
           (Rect.mk (-0.01 + 80000 / 111132.954) (-0.35) 1 0.35).ring] := by
  rw [split_by_area_rect_grid (Rect.mk (-0.01) (-0.35) 1 0.35) ((6400 : ℝ) * 1000000)
    (by norm_num) (by norm_num) (by norm_num) (by norm_num) (by norm_num) hU7_area_gt]
  have hcl := band7_cellLon (-0.01) 1
  have hca := band7_cellLat (-0.01) 1
  have hcols : gridCols (Rect.mk (-0.01) (-0.35) 1 0.35) ((6400 : ℝ) * 1000000) = 2 := by
    rw [gridCols, hcl]
    have hdx : ((Rect.mk (-0.01) (-0.35) 1 0.35 : Rect).x2 -
        (Rect.mk (-0.01) (-0.35) 1 0.35 : Rect).x1) = (1.01 : ℝ) := by norm_num
    rw [hdx, Nat.ceil_eq_iff (by norm_num)]
    norm_num
  have hrows : gridRows (Rect.mk (-0.01) (-0.35) 1 0.35) ((6400 : ℝ) * 1000000) = 1 := by
    rw [gridRows, hca]
    have hdy : ((Rect.mk (-0.01) (-0.35) 1 0.35 : Rect).y2 -
        (Rect.mk (-0.01) (-0.35) 1 0.35 : Rect).y1) = (0.7 : ℝ) := by norm_num
    rw [hdy, Nat.ceil_eq_iff (by norm_num)]
    norm_num
  rw [gridList_two_one _ _ hcols hrows (by rw [hcl]; norm_num) (by rw [hcl]; norm_num)
    (by rw [hca]; norm_num), hcl]

theorem split_ok_B7 :
    split_by_area_no_pyproj shapelyClip (.poly (Rect.mk 0 (-0.35) 1 0.35).ring)
      ((6400 : ℝ) * 1000000) =
      .ok [(Rect.mk 0 (-0.35) (80000 / 111132.954) 0.35).ring,
           (Rect.mk (80000 / 111132.954) (-0.35) 1 0.35).ring] := by
  rw [split_by_area_rect_grid (Rect.mk 0 (-0.35) 1 0.35) ((6400 : ℝ) * 1000000)
    (by norm_num) (by norm_num) (by norm_num) (by norm_num) (by norm_num) hB7_area_gt]
  have hcl := band7_cellLon 0 1
  have hca := band7_cellLat 0 1
  have hcols : gridCols (Rect.mk 0 (-0.35) 1 0.35) ((6400 : ℝ) * 1000000) = 2 := by
    rw [gridCols, hcl]
    have hdx : ((Rect.mk 0 (-0.35) 1 0.35 : Rect).x2 -
        (Rect.mk 0 (-0.35) 1 0.35 : Rect).x1) = (1 : ℝ) := by norm_num
    rw [hdx, Nat.ceil_eq_iff (by norm_num)]
    norm_num
  have hrows : gridRows (Rect.mk 0 (-0.35) 1 0.35) ((6400 : ℝ) * 1000000) = 1 := by
    rw [gridRows, hca]
    have hdy : ((Rect.mk 0 (-0.35) 1 0.35 : Rect).y2 -
        (Rect.mk 0 (-0.35) 1 0.35 : Rect).y1) = (0.7 : ℝ) := by norm_num
    rw [hdy, Nat.ceil_eq_iff (by norm_num)]
    norm_num
  rw [gridList_two_one _ _ hcols hrows (by rw [hcl]; norm_num) (by rw [hcl]; norm_num)
    (by rw [hca]; norm_num), hcl]
  norm_num

theorem resample_rect_id (sf : SimplifyFn) (r : Rect) (n : ℕ) (h : 5 ≤ n) :
    resample_polygon_geojson sf r.ring n = r.ring := by
  have hlen : (r.ring).length ≤ n := by
    simp only [Rect.ring, List.length_cons, List.length_nil]
    omega
  rw [resample_polygon_geojson, if_pos hlen]

theorem split_ok_S7 :
    split_by_area_no_pyproj shapelyClip (.poly (Rect.mk (-0.01) (-0.35) 0 0.35).ring)
      ((6400 : ℝ) * 1000000) = .ok [(Rect.mk (-0.01) (-0.35) 0 0.35).ring] :=
  split_by_area_poly_le shapelyClip (Rect.mk (-0.01) (-0.35) 0 0.35).ring
    ((6400 : ℝ) * 1000000) hS7_area_le

theorem stepB_code7 :
    stepB_split shapelyClip id (List.range 1) [(Rect.mk (-0.01) (-0.35) 1 0.35).ring]
      ((6400 : ℝ) * 1000000) 200 10 =
      [(Rect.mk (-0.01) (-0.35) (-0.01 + 80000 / 111132.954) 0.35).ring,
       (Rect.mk (-0.01 + 80000 / 111132.954) (-0.35) 1 0.35).ring] := by
  have hok := split_ok_U7
  have h0 := resample_rect_id id (Rect.mk (-0.01) (-0.35) (-0.01 + 80000 / 111132.954) 0.35)
    200 (by norm_num)
  have h1 := resample_rect_id id (Rect.mk (-0.01 + 80000 / 111132.954) (-0.35) 1 0.35)
    200 (by norm_num)
  generalize hrU : (Rect.mk (-0.01) (-0.35) 1 0.35).ring = rU at *
  generalize hr0 : (Rect.mk (-0.01) (-0.35) (-0.01 + 80000 / 111132.954) 0.35).ring = r0 at *
  generalize hr1 : (Rect.mk (-0.01 + 80000 / 111132.954) (-0.35) 1 0.35).ring = r1 at *
  simp [stepB_split, process_polygon_worker, hok, h0, h1,
    show List.range 1 = [0] by decide]

theorem stepB_spec7 :
    stepB_split shapelyClip id (List.range 2)
      [(Rect.mk 0 (-0.35) 1 0.35).ring, (Rect.mk (-0.01) (-0.35) 0 0.35).ring]
      ((6400 : ℝ) * 1000000) 200 10 =
      [(Rect.mk 0 (-0.35) (80000 / 111132.954) 0.35).ring,
       (Rect.mk (80000 / 111132.954) (-0.35) 1 0.35).ring,
       (Rect.mk (-0.01) (-0.35) 0 0.35).ring] := by
  have hokB := split_ok_B7
  have hokS := split_ok_S7
  have hq1 := resample_rect_id id (Rect.mk 0 (-0.35) (80000 / 111132.954) 0.35) 200
    (by norm_num)
  have hq2 := resample_rect_id id (Rect.mk (80000 / 111132.954) (-0.35) 1 0.35) 200
    (by norm_num)
  have hs := resample_rect_id id (Rect.mk (-0.01) (-0.35) 0 0.35) 200 (by norm_num)
  generalize hrB : (Rect.mk 0 (-0.35) 1 0.35).ring = rB at *
  generalize hrS : (Rect.mk (-0.01) (-0.35) 0 0.35).ring = rS at *
  generalize hr1 : (Rect.mk 0 (-0.35) (80000 / 111132.954) 0.35).ring = r1 at *
  generalize hr2 : (Rect.mk (80000 / 111132.954) (-0.35) 1 0.35).ring = r2 at *
  simp [stepB_split, process_polygon_worker, hokB, hokS, hq1, hq2, hs,
    show List.range 2 = [0, 1] by decide]

theorem hQ1_notsmall :
    ¬ (geodesic_area_m2 (Rect.mk 0 (-0.35) (80000 / 111132.954) 0.35).ring <
      200 * 1000000) := by
  have h := band_area_eq 0 (80000 / 111132.954) 0.35 (by norm_num) (by norm_num) (by norm_num)
  rw [h]
  push_neg
  have hK := bandK35_bounds.1
  have hcl : (0.7198 : ℝ) ≤ 80000 / 111132.954 := by norm_num
  nlinarith [mul_le_mul hcl hK (by norm_num : (0:ℝ) ≤ 8650000000)
    (le_trans (by norm_num) hcl)]

theorem hQ2_notsmall :
    ¬ (geodesic_area_m2 (Rect.mk (80000 / 111132.954) (-0.35) 1 0.35).ring <
      200 * 1000000) := by
  have h := band_area_eq (80000 / 111132.954) 1 0.35 (by norm_num) (by norm_num) (by norm_num)
  rw [h]
  push_neg
  have hK := bandK35_bounds.1
  have hsub : (0.2801 : ℝ) ≤ 1 - 80000 / 111132.954 := by norm_num
  nlinarith [mul_le_mul hsub hK (by norm_num : (0:ℝ) ≤ 8650000000)
    (le_trans (by norm_num) hsub)]

theorem hU1_notsmall :
    ¬ (geodesic_area_m2 (Rect.mk (-0.01) (-0.35) (80000 / 111132.954) 0.35).ring <
      200 * 1000000) := by
  have h := band_area_eq (-0.01) (80000 / 111132.954) 0.35 (by norm_num) (by norm_num)
    (by norm_num)
  rw [h]
  push_neg
  have hK := bandK35_bounds.1
  have hcl : (0.7208 : ℝ) ≤ 80000 / 111132.954 - -0.01 := by norm_num
  nlinarith [mul_le_mul hcl hK (by norm_num : (0:ℝ) ≤ 8650000000)
    (le_trans (by norm_num) hcl)]

theorem merge_pass_spec (nn : ℝ) :
    merge_pass rectMK
      [(Rect.mk 0 (-0.35) (80000 / 111132.954) 0.35).ring,
       (Rect.mk (80000 / 111132.954) (-0.35) 1 0.35).ring,
       (Rect.mk (-0.01) (-0.35) 0 0.35).ring]
      (200 * 1000000) false nn =
      some [(Rect.mk (-0.01) (-0.35) (80000 / 111132.954) 0.35).ring,
            (Rect.mk (80000 / 111132.954) (-0.35) 1 0.35).ring] := by
  have h1 := decide_eq_false hQ1_notsmall
  have h2 := decide_eq_false hQ2_notsmall
  have hS := decide_eq_true hS7_small
  have htouch1 : rectMK.touchesOrIntersects (Rect.mk (-0.01) (-0.35) 0 0.35).ring
      (Rect.mk 0 (-0.35) (80000 / 111132.954) 0.35).ring = true :=
    rectTouch_eval (Rect.mk (-0.01) (-0.35) 0 0.35)
      (Rect.mk 0 (-0.35) (80000 / 111132.954) 0.35) (by norm_num)
  have htouch2 : rectMK.touchesOrIntersects (Rect.mk (-0.01) (-0.35) 0 0.35).ring
      (Rect.mk (80000 / 111132.954) (-0.35) 1 0.35).ring = false :=
    rectTouch_eval_false (Rect.mk (-0.01) (-0.35) 0 0.35)
      (Rect.mk (80000 / 111132.954) (-0.35) 1 0.35) (by norm_num)
  have hunion : rectMK.union (Rect.mk (-0.01) (-0.35) 0 0.35).ring
      (Rect.mk 0 (-0.35) (80000 / 111132.954) 0.35).ring =
      (Rect.mk (-0.01) (-0.35) (80000 / 111132.954) 0.35).ring := by
    have h := rectUnion_eval (Rect.mk (-0.01) (-0.35) 0 0.35)
      (Rect.mk 0 (-0.35) (80000 / 111132.954) 0.35) (by norm_num)
    rw [show rectMK.union = rectUnionRing from rfl, h]
    norm_num
  generalize hrQ1 : (Rect.mk 0 (-0.35) (80000 / 111132.954) 0.35).ring = rQ1 at *
  generalize hrQ2 : (Rect.mk (80000 / 111132.954) (-0.35) 1 0.35).ring = rQ2 at *
  generalize hrS : (Rect.mk (-0.01) (-0.35) 0 0.35).ring = rS at *
  generalize hrU : (Rect.mk (-0.01) (-0.35) (80000 / 111132.954) 0.35).ring = rU at *
  rw [merge_pass]
  simp only [List.enum, List.enumFrom, List.map_cons, List.map_nil, List.filter_cons,
    List.filter_nil, h1, h2, hS]
  simp only [Bool.false_eq_true, if_false, if_true, List.isEmpty, List.mergeSort]
  simp only [tryMergeSmalls, Nat.reduceAdd, List.getD, List.getElem?_cons_succ,
    List.getElem?_cons_zero, Option.getD_some, List.enum, List.enumFrom, List.filter_cons,
    List.filter_nil, htouch1, htouch2]
  simp only [List.get?_cons_succ, List.get?_cons_zero, Option.getD_some, htouch1, htouch2,
    Nat.reduceBNe, bne_self_eq_false, Bool.true_and, Bool.false_and, Bool.and_true,
    Bool.and_false, if_true, if_false, Bool.false_eq_true, bestNeighbor, List.foldl_cons,
    List.foldl_nil, hunion, mergeReplace]
  simp only [show (2 ⊓ 0 : ℕ) = 0 from rfl, show (2 ⊔ 0 : ℕ) = 2 from rfl,
    List.set_cons_zero, List.eraseIdx_cons_succ, List.eraseIdx_cons_zero, List.eraseIdx_nil]

theorem merge_pass_spec2 (nn : ℝ) :
    merge_pass rectMK
      [(Rect.mk (-0.01) (-0.35) (80000 / 111132.954) 0.35).ring,
       (Rect.mk (80000 / 111132.954) (-0.35) 1 0.35).ring]
      (200 * 1000000) false nn = none := by
  have h1 := decide_eq_false hU1_notsmall
  have h2 := decide_eq_false hQ2_notsmall
  generalize hrU : (Rect.mk (-0.01) (-0.35) (80000 / 111132.954) 0.35).ring = rU at *
  generalize hrQ2 : (Rect.mk (80000 / 111132.954) (-0.35) 1 0.35).ring = rQ2 at *
  rw [merge_pass]
  simp only [List.enum, List.enumFrom, List.map_cons, List.map_nil, List.filter_cons,
    List.filter_nil, h1, h2]
  simp only [Bool.false_eq_true, if_false, List.isEmpty_nil, if_true]

theorem merge_spec_eval (t nn : ℝ) :
    merge_small_polygons rectMK
      [(Rect.mk 0 (-0.35) (80000 / 111132.954) 0.35).ring,
       (Rect.mk (80000 / 111132.954) (-0.35) 1 0.35).ring,
       (Rect.mk (-0.01) (-0.35) 0 0.35).ring]
      (200 * 1000000) t false nn =
      [(Rect.mk (-0.01) (-0.35) (80000 / 111132.954) 0.35).ring,
       (Rect.mk (80000 / 111132.954) (-0.35) 1 0.35).ring] := by
  rw [merge_small_polygons]
  rw [show (2000 : ℕ) = 1999 + 1 by norm_num]
  rw [mergeLoop_succ_some _ _ _ _ _ _ _ (merge_pass_spec nn)]
  rw [show (1999 : ℕ) = 1998 + 1 by norm_num]
  rw [mergeLoop_succ_none _ _ _ _ _ _ (merge_pass_spec2 nn)]

theorem code_pipeline_C7 (t nn : ℝ) :
    main_process_features rectMK shapelyClip id
      [(Rect.mk 0 (-0.35) 1 0.35).ring, (Rect.mk (-0.01) (-0.35) 0 0.35).ring]
      6400 200 t false nn 200 10 =
      [(Rect.mk (-0.01) (-0.35) (-0.01 + 80000 / 111132.954) 0.35).ring,
       (Rect.mk (-0.01 + 80000 / 111132.954) (-0.35) 1 0.35).ring] := by
  have hmerge := merge_code_eval t (nn * 1000)
  simp only [main_process_features]
  rw [if_pos (show (0 : ℝ) < 200 by norm_num)]
  rw [hmerge]
  exact stepB_code7

theorem spec_pipeline_C7 (t nn : ℝ) :
    pipeline_split_then_merge rectMK shapelyClip id
      [(Rect.mk 0 (-0.35) 1 0.35).ring, (Rect.mk (-0.01) (-0.35) 0 0.35).ring]
      6400 200 t false nn 200 10 =
      [(Rect.mk (-0.01) (-0.35) (80000 / 111132.954) 0.35).ring,
       (Rect.mk (80000 / 111132.954) (-0.35) 1 0.35).ring] := by
  simp only [pipeline_split_then_merge]
  rw [show [(Rect.mk 0 (-0.35) 1 0.35).ring,
      (Rect.mk (-0.01) (-0.35) 0 0.35).ring].length = 2 by simp]
  rw [stepB_spec7]
  rw [if_pos (show (0 : ℝ) < 200 by norm_num)]
  exact merge_spec_eval t (nn * 1000)

/-- C7 counterexample: on two polygons in the equatorial band `[-0.35°,0.35°]`
— a big rectangle `[0,1]°` wide and a small sliver `[-0.01,0]°` touching it —
with `max_area_km2 = 6400`, `min_area_km2 = 200`, the source's `main_process`
(which merges small polygons BEFORE splitting) and the spec's pipeline
(Area Splitter first, then the Fragment Merger on the full splitter output)
produce different feature lists: the source merges the sliver into the big
rectangle and then grid-splits the union at `x = -0.01 + 80000/111132.954`,
while the spec's order splits the big rectangle at `x = 80000/111132.954`
first and only then merges the sliver into the left piece. -/
theorem c7_counterexample :
    main_process_features rectMK shapelyClip id
      [(Rect.mk 0 (-0.35) 1 0.35).ring, (Rect.mk (-0.01) (-0.35) 0 0.35).ring]
      6400 200 0 false 0 200 10 ≠
    pipeline_split_then_merge rectMK shapelyClip id
      [(Rect.mk 0 (-0.35) 1 0.35).ring, (Rect.mk (-0.01) (-0.35) 0 0.35).ring]
      6400 200 0 false 0 200 10 := by
  rw [code_pipeline_C7 0 0, spec_pipeline_C7 0 0]
  intro h
  simp only [Rect.ring, List.cons.injEq, Prod.mk.injEq] at h
  norm_num at h

/-- C7 (amended): `main_process` applies the Fragment Merger FIRST (step A,
when `min_area_km2 > 0`) and the Area Splitter afterwards (step B), so
merging operates on the input polygons before any splitting — the reverse
of the spec's split-then-merge data flow. -/
theorem c7_merge_before_split (MK : MergeKernel) (K : GeoKernel) (sf : SimplifyFn)
    (polys : List PolyRing) (maxk mink t : ℝ) (flag : Bool) (nn : ℝ) (ap pz : ℕ)
    (h : 0 < mink) :
    main_process_features MK K sf polys maxk mink t flag nn ap pz =
      stepB_split K sf
        (List.range (merge_small_polygons MK polys (mink * 1000000) t flag
          (nn * 1000)).length)
        (merge_small_polygons MK polys (mink * 1000000) t flag (nn * 1000))
        (maxk * 1000000) ap pz := by
  simp only [main_process_features]
  rw [if_pos h]

theorem c7_merge_before_split_witness :
    (0 : ℝ) < 1 ∧
    main_process_features rectMK shapelyClip id [] 1 1 0 false 0 5 10 =
      stepB_split shapelyClip id
        (List.range (merge_small_polygons rectMK [] ((1 : ℝ) * 1000000) 0 false
          ((0 : ℝ) * 1000)).length)
        (merge_small_polygons rectMK [] ((1 : ℝ) * 1000000) 0 false ((0 : ℝ) * 1000))
        ((1 : ℝ) * 1000000) 5 10 :=
  ⟨by norm_num,
   c7_merge_before_split rectMK shapelyClip id [] 1 1 0 false 0 5 10 (by norm_num)⟩
